import Mathlib

/-!
# Verification of the ACORD extraction pipeline and validation matcher

Shallow embedding of the core of the `acord-dummy-repo` Python code base:

* `app/services/acord/acord_formatter.py`   — `format_checkbox`
* `app/services/pypdf_extractor.py`         — `_is_checkbox_checked`
* `app/services/acord/acord_organizer.py`   — `AcordOrganizer.organize`
* `app/services/acord/acord_pipeline.py`    — `AcordExtractionPipeline.process`
* `app/services/acord/direct_mapper.py`     — `DirectMapper.direct_map`
* `app/services/validation/validation_service.py` — the five-tier match cascade

Python values are modelled by the inductive type `PyVal`; Python `dict`s by
insertion-ordered association lists; machine floats by exact rationals (every
score in the matcher is a ratio of small naturals, where exact rational
comparison agrees with the double-precision comparisons performed by the
code); the LLM client, the JSON parser and the Porter stemmer are opaque
collaborators and enter as explicit function parameters.
-/

set_option maxHeartbeats 1000000
set_option maxRecDepth 100000

namespace Acord

/-- A Python runtime value, as far as the embedded code inspects one:
`None`, `bool`, `str`, `int`, lists and (insertion-ordered) dicts. -/
inductive PyVal where
  | none
  | bool (b : Bool)
  | str (s : String)
  | int (n : Int)
  | list (xs : List PyVal)
  | dict (kvs : List (String × PyVal))

instance : Inhabited PyVal := ⟨.none⟩

/-- Python truthiness (`bool(v)`). -/
def pyTruthy : PyVal → Bool
  | .none => false
  | .bool b => b
  | .str s => s ≠ ""
  | .int n => n ≠ 0
  | .list xs => ¬ xs.isEmpty
  | .dict kvs => ¬ kvs.isEmpty

/-- ASCII lowercasing of one character (`str.lower()` acts per character; the
embedded data is ASCII). -/
def asciiLower (c : Char) : Char :=
  if 'A' ≤ c ∧ c ≤ 'Z' then Char.ofNat (c.toNat + 32) else c

/-- Lowercase a string character by character (`str.lower()` on ASCII data). -/
def pyLower (s : String) : String :=
  String.mk (s.data.map asciiLower)

/-- The characters `str.strip()` removes (Python's ASCII whitespace). -/
def isPySpace (c : Char) : Bool :=
  c = ' ' ∨ c = '\t' ∨ c = '\n' ∨ c = '\r' ∨ c = Char.ofNat 11 ∨
    c = Char.ofNat 12

/-- `str.strip()`: drop leading and trailing whitespace. -/
def pyStrip (s : String) : String :=
  String.mk (((s.data.dropWhile isPySpace).reverse.dropWhile isPySpace).reverse)

/-- `value.lower().strip()`, the normalisation applied by the checkbox
helpers. -/
def lowerStrip (s : String) : String :=
  pyStrip (pyLower s)

/-! ## `format_checkbox` (app/services/acord/acord_formatter.py lines 10-20) -/

/-- The string tokens `format_checkbox` recognises as affirmative. -/
def checkboxYesTokens : List String :=
  ["yes", "y", "true", "1", "/1", "/yes", "x", "checked"]

/-- `format_checkbox(value)`: `None` → `"No"`, booleans → `"Yes"/"No"`,
strings case-insensitively matched against `checkboxYesTokens` → `"Yes"`,
everything else falls through to the final `return "No"`. -/
def format_checkbox : PyVal → String
  | .none => "No"
  | .bool b => if b then "Yes" else "No"
  | .str s => if lowerStrip s ∈ checkboxYesTokens then "Yes" else "No"
  | _ => "No"

/-! ## `_is_checkbox_checked` (app/services/pypdf_extractor.py lines 137-155) -/

/-- The `true_values` literal set of `_is_checkbox_checked`. -/
def checkboxTrueValues : List String :=
  ["/1", "/Yes", "/On", "1", "Yes", "On", "true", "True"]

/-- The `false_values` literal set of `_is_checkbox_checked`. -/
def checkboxFalseValues : List String :=
  ["/0", "/No", "/Off", "0", "No", "Off", "false", "False"]

/-- `_is_checkbox_checked(value, appearance_state)`: prefer `/V`, fall back to
`/AS`; strip; compare against the literal token sets; otherwise treat any
token outside `{"", "None", "null"}` as checked. -/
def is_checkbox_checked (value appearance_state : Option String) : Bool :=
  let raw_value := if value.isSome then value else appearance_state
  match raw_value with
  | Option.none => false
  | Option.some raw =>
    let value_str := pyStrip raw
    if value_str ∈ checkboxTrueValues then true
    else if value_str ∈ checkboxFalseValues then false
    else ¬ value_str ∈ ["", "None", "null"]

end Acord

namespace Acord

/-! ## AI Organizer (app/services/acord/acord_organizer.py lines 46-104)

The `app` and `backend` variants of `AcordOrganizer.organize` are
behaviourally identical here (they differ only in which chat-completion
service they call); this is the embedding of both. -/

/-- Reply shape of the chat-completion collaborator
(`openai_service.chat_completion` / `groq_service.chat_completion`). -/
structure ChatResponse where
  success : Bool
  content : String
  error : Option String

/-- Result dictionary of `AcordOrganizer.organize`. -/
structure OrgResult where
  success : Bool
  error : Option String
  organized_data : List (String × PyVal)

/-- `AcordOrganizer.organize(raw_fields)`. The LLM call is the explicit
parameter `chat` (`Except.error` is an exception raised by the call, caught
by the source's `try/except`); `parse` stands for `_parse_response`, whose
JSON decoding is an opaque collaborator. Empty `raw_fields` short-circuits
before the prompt is built, so neither parameter is consulted there. -/
def organize (parse : String → List (String × PyVal))
    (chat : Except String ChatResponse)
    (raw_fields : List (String × PyVal)) : OrgResult :=
  if raw_fields.isEmpty then
    { success := false
      error := Option.some "No fields to organize"
      organized_data := [] }
  else
    match chat with
    | .error e =>
      { success := false, error := Option.some e, organized_data := [] }
    | .ok response =>
      if ¬ response.success then
        { success := false
          error := Option.some (response.error.getD "API call failed")
          organized_data := [] }
      else
        { success := true
          error := Option.none
          organized_data := parse response.content }

/-! ## Pipeline orchestrator (app/services/acord/acord_pipeline.py 32-119) -/

/-- The fields of `detect_acord_form`'s reply that `process` consults. -/
structure Detection where
  is_fillable : Bool
  is_acord : Bool
  confidence : String

/-- The fields of `extract_form_fields`'s reply that `process` consults. -/
structure ExtractionReply where
  success : Bool
  error : Option String

/-- The fields of `extract_for_openai_from_result`'s reply that `process`
consults. -/
structure PrepReply where
  success : Bool
  error : Option String
  data : List (String × PyVal)

/-- Terminal result of `AcordExtractionPipeline.process`, restricted to the
fields the claims are about. -/
structure PipelineResult where
  success : Bool
  error : Option String
  formatted_data : Option PyVal

/-- `AcordExtractionPipeline.process`, with the I/O-performing stages
(detection, extraction, preparation, organization) supplied as their
observed results, and the formatter as a function parameter. Mirrors the
source's control flow: every failing stage except the non-ACORD warning
returns early with `success` still `False`; only after a successful
organization are `success = True` and `formatted_data` set. -/
def process (detection : Detection) (extraction : ExtractionReply)
    (prep : PrepReply) (organization : OrgResult)
    (format : List (String × PyVal) → PyVal) : PipelineResult :=
  if ¬ detection.is_fillable then
    { success := false
      error := Option.some "PDF is not a fillable form. Use OCR/AI extraction instead."
      formatted_data := Option.none }
  else
    -- `if not detection.get("is_acord")`: the warning is recorded in
    -- `result["error"]` but processing continues.
    let warn : Option String :=
      if ¬ detection.is_acord then
        Option.some ("PDF does not appear to be an ACORD form. Confidence: "
          ++ detection.confidence)
      else Option.none
    if ¬ extraction.success then
      { success := false
        error := Option.some (extraction.error.getD "Extraction failed")
        formatted_data := Option.none }
    else if ¬ prep.success then
      { success := false
        error := Option.some
          (prep.error.getD "Failed to prepare data for organization")
        formatted_data := Option.none }
    else if ¬ organization.success then
      { success := false
        error := Option.some (organization.error.getD "Organization failed")
        formatted_data := Option.none }
    else
      { success := true
        error := warn
        formatted_data := Option.some (format organization.organized_data) }

/-! ## Dictionary primitives

Python `dict`s are embedded as insertion-ordered association lists:
assignment updates an existing key in place or appends a fresh one. -/

/-- `d[k]` lookup (`None`-free: `Option`-valued). -/
def alookup {α : Type} (k : String) : List (String × α) → Option α
  | [] => Option.none
  | kv :: t => if kv.1 = k then Option.some kv.2 else alookup k t

/-- `d[k] = v` assignment: update in place or append. -/
def dinsert {α : Type} (k : String) (v : α) :
    List (String × α) → List (String × α)
  | [] => [(k, v)]
  | kv :: t => if kv.1 = k then (k, v) :: t else kv :: dinsert k v t

/-- `set.add(k)` on a set of strings represented as a duplicate-free list. -/
def insertKey (k : String) (s : List String) : List String :=
  if k ∈ s then s else s ++ [k]

/-- The keys of an embedded dict, in insertion order. -/
def dictKeys {α : Type} (d : List (String × α)) : List String :=
  d.map Prod.fst

/-- Is this value a Python `dict`? -/
def PyVal.isDict : PyVal → Bool
  | .dict _ => true
  | _ => false

/-- Is this value the Python `None`? (`value is None`). -/
def PyVal.isNone : PyVal → Bool
  | .none => true
  | _ => false

/-- Python `repr(v)` for the value shapes the mapper can encounter (string
escaping of embedded quotes is not modelled; the mapper only ever renders
plain field text). -/
def pyRepr : PyVal → String
  | .none => "None"
  | .bool b => if b then "True" else "False"
  | .str s => "'" ++ s ++ "'"
  | .int n => toString n
  | .list xs =>
    "[" ++ String.intercalate ", " (xs.attach.map fun x => pyRepr x.1) ++ "]"
  | .dict kvs =>
    "\x7b" ++ String.intercalate ", "
      (kvs.attach.map fun kv => "'" ++ kv.1.1 ++ "': " ++ pyRepr kv.1.2)
      ++ "\x7d"
termination_by v => sizeOf v
decreasing_by
  all_goals
    first
    | (have h := List.sizeOf_lt_of_mem x.2
       simp at h ⊢
       omega)
    | (obtain ⟨⟨a, b⟩, hm⟩ := kv
       have h := List.sizeOf_lt_of_mem hm
       simp at h ⊢
       omega)

/-- Python `str(v)` (`f"{v}"`): identical to `repr` except on strings. -/
def pyStr : PyVal → String
  | .str s => s
  | v => pyRepr v

/-! ## Direct Mapper (app/services/acord/direct_mapper.py) -/

/-- Split a list of characters at every occurrence of `sep`
(Python `str.split(sep)` for a single-character separator). -/
def splitChar (sep : Char) : List Char → List (List Char)
  | [] => [[]]
  | c :: t =>
    if c = sep then [] :: splitChar sep t
    else
      match splitChar sep t with
      | [] => [[c]]
      | p :: ps => (c :: p) :: ps

/-- `path.split('.')`. -/
def splitPath (path : String) : List String :=
  (splitChar '.' path.data).map String.mk

/-- `schema_path.startswith(p)`. -/
def strStartsWith (s p : String) : Bool :=
  p.data.isPrefixOf s.data

/-- `p.rstrip('.')`. -/
def rstripDots (s : String) : String :=
  String.mk (s.data.reverse.dropWhile (· = '.')).reverse

/-- `self.coverage_prefixes` (direct_mapper.py lines 35-46). -/
def coverage_prefixes : List String :=
  ["issue_date", "certificate_number", "certificate_holder",
   "general_liability.", "auto_liability.", "umbrella.", "workers_comp.",
   "other.", "remarks", "authorized_representative"]

/-- `DirectMapper._is_coverage_path` (lines 128-133). -/
def is_coverage_path (schema_path : String) : Bool :=
  coverage_prefixes.any fun pfx =>
    strStartsWith schema_path pfx ∨ schema_path = rstripDots pfx

/-- Normalisation of one raw field name (direct_map lines 92-101): strip a
trailing `[0]`, else strip any other trailing `[n]` index. -/
def normalizeFieldKey (raw_key : String) : String :=
  let cs := raw_key.data
  if ['[', '0', ']'].isSuffixOf cs then
    String.mk (cs.take (cs.length - 3))
  else if cs.getLast? = Option.some ']' ∧ cs.contains '[' then
    -- `raw_key[:raw_key.rfind('[')]`
    String.mk ((cs.reverse.dropWhile (· ≠ '[')).tail.reverse)
  else raw_key

/-- The `normalized_fields` dict built by `direct_map` (lines 91-101). -/
def normalizeFields (raw_fields : List (String × PyVal)) :
    List (String × PyVal) :=
  raw_fields.foldl (fun acc kv => dinsert (normalizeFieldKey kv.1) kv.2 acc) []

/-- `DirectMapper._init_coverage_structure` (lines 135-241). -/
def init_coverage_structure : PyVal :=
  .dict
    [("issue_date", .none),
     ("certificate_number", .none),
     ("certificate_holder", .dict
       [("name", .none), ("address", .none)]),
     ("general_liability", .dict
       [("insurer_letter", .none), ("policy_number", .none),
        ("effective_date", .none), ("expiration_date", .none),
        ("general_liability_coverage_indicator", .none),
        ("claims_made", .none), ("occurrence", .none),
        ("custom_option_1", .none), ("custom_option_1_value", .none),
        ("custom_option_2", .none), ("custom_option_2_value", .none),
        ("general_aggregate_limit_applies_per_policy", .none),
        ("general_aggregate_limit_applies_per_project", .none),
        ("general_aggregate_limit_applies_per_location", .none),
        ("general_aggregate_limit_applies_per_other", .none),
        ("general_aggregate_limit_applies_per_other_value", .none),
        ("each_occurrence", .none), ("damage_to_rented_premises", .none),
        ("medical_expense", .none), ("personal_adv_injury", .none),
        ("general_aggregate", .none), ("products_comp_op_agg", .none),
        ("additional_insured", .none), ("subrogation_waived", .none)]),
     ("auto_liability", .dict
       [("insurer_letter", .none), ("policy_number", .none),
        ("effective_date", .none), ("expiration_date", .none),
        ("any_auto", .none), ("owned_autos_only", .none),
        ("hired_autos_only", .none), ("scheduled_autos_only", .none),
        ("non_owned_autos_only", .none),
        ("custom_option_1", .none), ("custom_option_1_value", .none),
        ("custom_option_2", .none), ("custom_option_2_value", .none),
        ("combined_single_limit", .none),
        ("bodily_injury_per_person", .none),
        ("bodily_injury_per_accident", .none),
        ("property_damage", .none),
        ("additional_insured", .none), ("subrogation_waived", .none)]),
     ("umbrella", .dict
       [("insurer_letter", .none), ("policy_number", .none),
        ("effective_date", .none), ("expiration_date", .none),
        ("umbrella_liab", .none), ("excess_liab", .none),
        ("occurrence", .none), ("claims_made", .none),
        ("deductible", .none), ("retention", .none),
        ("retention_amount", .none),
        ("each_occurrence", .none), ("aggregate", .none),
        ("additional_insured", .none), ("subrogation_waived", .none)]),
     ("workers_comp", .dict
       [("insurer_letter", .none), ("policy_number", .none),
        ("effective_date", .none), ("expiration_date", .none),
        ("per_statute", .none), ("other", .none),
        ("per_statute_other_limit", .none),
        ("each_accident", .none), ("disease_each_employee", .none),
        ("disease_policy_limit", .none), ("any_excluded", .none),
        ("additional_insured", .none), ("subrogation_waived", .none)]),
     ("other", .dict
       [("insurer_letter", .none), ("type_of_insurance", .none),
        ("addl", .none), ("subr", .none),
        ("policy_number", .none), ("effective_date", .none),
        ("expiration_date", .none), ("description", .none),
        ("first_policy_option", .none), ("first_policy_limit", .none),
        ("second_policy_option", .none), ("second_policy_limit", .none),
        ("third_policy_option", .none), ("third_policy_limit", .none)]),
     ("remarks", .none),
     ("authorized_representative", .none)]

/-- The recursive worker of `DirectMapper._set_nested_value` (lines 243-274):
walk the intermediate keys (replacing a missing/`None`/non-dict child with
`{}`), then set the final key, concatenating instead of overwriting a
truthy `address` leaf. The value has already been stripped by the caller.
A non-dict `current` would raise in Python and is returned unchanged here
(the mapper only ever passes dicts). -/
def setNestedGo : PyVal → List String → PyVal → PyVal
  | data, [], _ => data
  | data, [final_key], value =>
    match data with
    | .dict kvs =>
      if final_key = "address" ∧ pyTruthy ((alookup final_key kvs).getD .none)
      then
        let existing := (alookup final_key kvs).getD .none
        if pyTruthy value ∧ pyStrip (pyStr value) ≠ "" then
          .dict (dinsert final_key
            (.str (pyStr existing ++ ", " ++ pyStr value)) kvs)
        else .dict kvs
      else .dict (dinsert final_key value kvs)
    | other => other
  | data, key :: rest, value =>
    match data with
    | .dict kvs =>
      let child :=
        match alookup key kvs with
        | Option.some (.dict ckvs) => PyVal.dict ckvs
        | _ => PyVal.dict []
      .dict (dinsert key (setNestedGo child rest value) kvs)
    | other => other

/-- `DirectMapper._set_nested_value(data, path, value)`: strings are stripped
before assignment (lines 255-256). -/
def set_nested (data : PyVal) (path : String) (value : PyVal) : PyVal :=
  let value :=
    match value with
    | .str s => PyVal.str (pyStrip s)
    | v => v
  setNestedGo data (splitPath path) value

/-- `checkbox_fields` of `DirectMapper._normalize_checkboxes`
(lines 286-303). -/
def checkbox_fields : List String :=
  ["claims_made", "occurrence", "custom_option_1", "custom_option_2",
   "general_aggregate_limit_applies_per_policy",
   "general_aggregate_limit_applies_per_project",
   "general_aggregate_limit_applies_per_location",
   "general_aggregate_limit_applies_per_other",
   "additional_insured", "subrogation_waived",
   "any_auto", "owned_autos_only", "hired_autos_only",
   "scheduled_autos_only", "non_owned_autos_only",
   "umbrella_liab", "excess_liab", "deductible", "retention",
   "per_statute", "other", "any_excluded",
   "addl", "subr"]

/-- `normalize_value` inside `_normalize_checkboxes` (lines 305-317). -/
def normalize_value : PyVal → PyVal
  | .none => .none
  | .bool b => .str (if b then "Yes" else "No")
  | .str s =>
    let val_lower := lowerStrip s
    if val_lower ∈ ["yes", "y", "true", "1", "/1", "/yes", "x", "checked",
        "on"] then .str "Yes"
    else if val_lower ∈ ["no", "n", "false", "0", "/0", "/no", "off",
        "unchecked"] then .str "No"
    else .str s
  | v => v

/-- `process_dict` inside `_normalize_checkboxes` (lines 319-326), on the
entries of one dict: recurse into dict values, rewrite checkbox leaves. -/
def normalizeKVs : List (String × PyVal) → List (String × PyVal)
  | [] => []
  | (k, v) :: t =>
    (match v with
     | .dict ckvs => (k, PyVal.dict (normalizeKVs ckvs))
     | other =>
       if k ∈ checkbox_fields then (k, normalize_value other) else (k, other))
      :: normalizeKVs t
termination_by kvs => sizeOf kvs

/-- `DirectMapper._normalize_checkboxes` (lines 276-328). -/
def normalize_checkboxes : PyVal → PyVal
  | .dict kvs => .dict (normalizeKVs kvs)
  | v => v

/-- One iteration of the first loop of `direct_map` (lines 104-116), on the
`(coverage_data, unmapped_fields, mapped_keys)` state. -/
def mapStep (normalized_fields : List (String × PyVal))
    (acc : PyVal × List (String × PyVal) × List String)
    (fm : String × String) : PyVal × List (String × PyVal) × List String :=
  match alookup fm.1 normalized_fields with
  | Option.some value =>
    if is_coverage_path fm.2 then
      (set_nested acc.1 fm.2 value, acc.2.1, insertKey fm.1 acc.2.2)
    else
      (acc.1, dinsert fm.1 value acc.2.1, insertKey fm.1 acc.2.2)
  | Option.none => acc

/-- The first loop of `direct_map` (lines 104-116): walk the mapping table,
route each present field into the coverage structure or the unmapped dict,
and record it as mapped. -/
def mapLoop (field_mappings : List (String × String))
    (normalized_fields : List (String × PyVal)) :
    PyVal × List (String × PyVal) × List String :=
  field_mappings.foldl (mapStep normalized_fields)
    (init_coverage_structure, [], [])

/-- One iteration of the second loop of `direct_map` (lines 118-121). -/
def unmappedStep (mapped : List String) (acc : List (String × PyVal))
    (kv : String × PyVal) : List (String × PyVal) :=
  if ¬ kv.1 ∈ mapped ∧ ¬ kv.2.isNone then dinsert kv.1 kv.2 acc else acc

/-- The second loop of `direct_map` (lines 118-121): add the truly unmapped
fields, silently skipping those whose value is `None`. -/
def unmappedLoop (normalized_fields : List (String × PyVal))
    (mapped : List String) (unmapped : List (String × PyVal)) :
    List (String × PyVal) :=
  normalized_fields.foldl (unmappedStep mapped) unmapped

/-- `DirectMapper.direct_map(raw_fields)` (lines 69-126): returns the
`(coverage_data, unmapped_fields)` pair. -/
def direct_map (field_mappings : List (String × String))
    (raw_fields : List (String × PyVal)) :
    PyVal × List (String × PyVal) :=
  if raw_fields.isEmpty then (.dict [], [])
  else
    let normalized_fields := normalizeFields raw_fields
    let step := mapLoop field_mappings normalized_fields
    (normalize_checkboxes step.1,
     unmappedLoop normalized_fields step.2.2 step.2.1)

/-- The normalized raw keys consumed into the coverage structure by
`direct_map`: those the mapping table sends to a coverage path. (With a
duplicate-free table this is exactly the set `mapped_keys` minus the keys
routed to the unmapped dict.) -/
def consumedKeys (field_mappings : List (String × String))
    (raw_fields : List (String × PyVal)) : List String :=
  (dictKeys (normalizeFields raw_fields)).filter fun k =>
    match alookup k field_mappings with
    | Option.some p => is_coverage_path p
    | Option.none => false

/-! ## Schema shape (for the shape-invariance claim) -/

/-- The nesting shape of a value: dicts become labelled nodes, everything
else a leaf. Two values have equal `shape` exactly when they have the same
key set at every nesting level. -/
inductive Shape where
  | leaf
  | node (children : List (String × Shape))

/-- Shape of the entries of one dict. -/
def shapeKVs : List (String × PyVal) → List (String × Shape)
  | [] => []
  | (k, v) :: t =>
    (k, match v with
        | .dict ckvs => Shape.node (shapeKVs ckvs)
        | _ => Shape.leaf) :: shapeKVs t
termination_by kvs => sizeOf kvs

/-- The nesting shape of a value. -/
def shape : PyVal → Shape
  | .dict kvs => .node (shapeKVs kvs)
  | _ => .leaf

/-- The top-level keys of a value (empty for non-dicts). -/
def topKeys : PyVal → List String
  | .dict kvs => dictKeys kvs
  | _ => []

/-- Does `path` address a non-dict leaf inside `data`? (The precondition
under which `_set_nested_value` cannot change the schema shape.) -/
def isLeafPathOf (data : PyVal) : List String → Bool
  | [] => false
  | [k] =>
    match data with
    | .dict kvs =>
      match alookup k kvs with
      | Option.some v => ¬ v.isDict
      | Option.none => false
    | _ => false
  | k :: rest =>
    match data with
    | .dict kvs =>
      match alookup k kvs with
      | Option.some c => isLeafPathOf c rest
      | Option.none => false
    | _ => false

/-! ## Validation matcher: text utilities
(app/services/validation/validation_service.py) -/

/-- Worker for `collapseWS`: the flag records whether the previous character
was part of a whitespace run already emitted as one space. -/
def collapseWSGo : Bool → List Char → List Char
  | _, [] => []
  | inRun, c :: t =>
    if isPySpace c then
      if inRun then collapseWSGo true t else ' ' :: collapseWSGo true t
    else c :: collapseWSGo false t

/-- Collapse every run of whitespace to a single space
(`re.sub(r"\s+", " ", text)`). -/
def collapseWS (cs : List Char) : List Char :=
  collapseWSGo false cs

/-- Keep only the characters `re.sub(r"[^a-z0-9\s]", "", text)` retains. -/
def isKeptChar (c : Char) : Bool :=
  ('a' ≤ c ∧ c ≤ 'z') ∨ ('0' ≤ c ∧ c ≤ '9') ∨ isPySpace c

/-- `ValidationService._normalize_text` (lines 288-300): strip+lowercase,
replace `&`/`+` with `" and "` and `/`,`_`,`-` with a space, collapse
whitespace, drop the remaining non-alphanumeric-non-space characters, strip.
(The three-character replacements contain none of the replaced characters,
so the source's sequential `str.replace` chain equals this one pass.) -/
def normalize_text (value : String) : String :=
  let text := pyLower (pyStrip value)
  let cs := text.data.flatMap fun c =>
    if c = '&' then " and ".data
    else if c = '+' then " and ".data
    else if c = '/' then [' ']
    else if c = '_' then [' ']
    else if c = '-' then [' ']
    else [c]
  pyStrip (String.mk ((collapseWS cs).filter isKeptChar))

/-- Split at every maximal run of characters satisfying `p` (the behaviour of
`re.split` on a `[...]+` character class: empty parts can appear only at the
two ends). A separator character starts a new (initially empty) part unless
the next character extends the same run. -/
def splitRunsBy (p : Char → Bool) : List Char → List (List Char)
  | [] => [[]]
  | c :: t =>
    let rest := splitRunsBy p t
    if p c then
      match t with
      | t0 :: _ => if p t0 then rest else [] :: rest
      | [] => [] :: rest
    else
      match rest with
      | [] => [[c]]
      | q :: qs => (c :: q) :: qs

/-- The separators of `re.split(r"[,;\n|]+", raw_text)`. -/
def isRuleDelim (c : Char) : Bool :=
  c = ',' ∨ c = ';' ∨ c = '\n' ∨ c = '|'

/-- The `seen`-set deduplication loop of
`_normalized_rule_product_candidates`: keep each non-empty string the first
time it appears. -/
def dedupNonEmptyGo : List String → List String → List String
  | [], _ => []
  | s :: t, seen =>
    if s ≠ "" ∧ ¬ s ∈ seen then s :: dedupNonEmptyGo t (s :: seen)
    else dedupNonEmptyGo t seen

/-- `ValidationService._normalized_rule_product_candidates` (lines 302-325):
split a rule's product field on `,;\n|`, normalize, deduplicate; fall back
to the normalisation of the whole text. -/
def normalized_rule_product_candidates (raw_rule_value : Option String) :
    List String :=
  match raw_rule_value with
  | Option.none => []
  | Option.some raw =>
    let raw_text := pyStrip raw
    if raw_text = "" then []
    else
      let split_parts := (splitRunsBy isRuleDelim raw_text.data).map String.mk
      let normalized_candidates :=
        dedupNonEmptyGo (split_parts.map normalize_text) []
      if ¬ normalized_candidates.isEmpty then normalized_candidates
      else
        let normalized_full := normalize_text raw_text
        if normalized_full ≠ "" then [normalized_full] else []

/-- A `validation_rules` row as `validate_data` consumes it. -/
structure Rule where
  id : Int
  certificate_type : String
  product_name : Option String
  is_active : Bool
  deriving DecidableEq

/-- The rule-expansion loop of `validate_data` (lines 126-131): pair each
rule with its candidate list, dropping rules with no candidates. -/
def expandRules (rules : List Rule) : List (Rule × List String) :=
  rules.filterMap fun rule =>
    let candidates := normalized_rule_product_candidates rule.product_name
    if candidates.isEmpty then Option.none else Option.some (rule, candidates)

/-- Order-preserving deduplication (a Python `set` whose size is taken). -/
def distinctGo : List String → List String → List String
  | [], _ => []
  | s :: t, seen =>
    if s ∈ seen then distinctGo t seen else s :: distinctGo t (s :: seen)

/-- The distinct elements of a list, first occurrences kept in order. -/
def distinct (l : List String) : List String := distinctGo l []

/-- `left.split(" ")` (split at every single space) with falsy (empty)
tokens discarded, as a set. -/
def tokenSet (s : String) : List String :=
  distinct (((splitChar ' ' s.data).map String.mk).filter (· ≠ ""))

/-- `ValidationService._token_overlap_score` (lines 327-343): Jaccard index
over space-split tokens, zero below one common token. -/
def token_overlap_score (left right : String) : ℚ :=
  let left_tokens := tokenSet left
  let right_tokens := tokenSet right
  if left_tokens.isEmpty ∨ right_tokens.isEmpty then 0
  else
    let intersection := left_tokens.filter (fun tok => tok ∈ right_tokens)
    if intersection.length < 1 then 0
    else
      let union :=
        left_tokens ++ right_tokens.filter (fun tok => ¬ tok ∈ left_tokens)
      if union.isEmpty then 0
      else (intersection.length : ℚ) / (union.length : ℚ)

/-- `ValidationService._stem_tokens` (lines 345-348): `text.split()`
(whitespace runs, no empties), Porter-stemmed (`stem` is the opaque NLTK
collaborator), as a set. -/
def stem_tokens (stem : String → String) (text : String) : List String :=
  distinct (((splitRunsBy isPySpace text.data).filter (· ≠ [])).map
    fun tok => stem (String.mk tok))

/-- `ValidationService._stem_based_overlap_score` (lines 350-366). -/
def stem_based_overlap_score (stem : String → String)
    (left right : String) : ℚ :=
  let left_stems := stem_tokens stem left
  let right_stems := stem_tokens stem right
  if left_stems.isEmpty ∨ right_stems.isEmpty then 0
  else
    let intersection := left_stems.filter (fun tok => tok ∈ right_stems)
    if intersection.isEmpty then 0
    else
      let union :=
        left_stems ++ right_stems.filter (fun tok => ¬ tok ∈ left_stems)
      if union.isEmpty then 0
      else (intersection.length : ℚ) / (union.length : ℚ)

/-! ## `difflib.SequenceMatcher.ratio` (the `_fuzzy_similarity` collaborator)

Embedded for inputs below difflib's autojunk threshold (strings shorter
than 200 characters, which covers every normalized product name): no
element of `b` is junk, so `find_longest_match` is the earliest longest
common contiguous block and `ratio` is `2*M/(len(a)+len(b))` with `M` the
total size of the recursively found matching blocks. -/

/-- Length of the common prefix of two character lists (the length of the
matching run starting at a given pair of positions). -/
def runLen : List Char → List Char → Nat
  | a :: as, b :: bs => if a = b then runLen as bs + 1 else 0
  | _, _ => 0

/-- All `(i, j)` start positions in iteration order (`i` outer). -/
def allStarts (la lb : Nat) : List (Nat × Nat) :=
  (List.range la).flatMap fun i => (List.range lb).map fun j => (i, j)

/-- `find_longest_match` over whole lists, junk-free: the longest matching
block, earliest in `a` then earliest in `b` (strict improvement over the
`i`-then-`j` scan, exactly difflib's tie-breaking). Returns
`(besti, bestj, bestsize)`. -/
def bestMatch (a b : List Char) : Nat × Nat × Nat :=
  (allStarts a.length b.length).foldl
    (fun acc ij =>
      let s := runLen (a.drop ij.1) (b.drop ij.2)
      if s > acc.2.2 then (ij.1, ij.2, s) else acc)
    (0, 0, 0)

/-- Total size of difflib's matching blocks (`get_matching_blocks`), with an
explicit recursion budget: take the earliest longest block, recurse on the
parts before and after it. Each recursive call strictly decreases
`a.length + b.length` (the block is non-empty and within bounds, see
`bestMatch_bounds`), so a budget exceeding the total length is never
exhausted: the `0` branch is unreachable from `matchesCount`. -/
def matchesCountFuel : Nat → List Char → List Char → Nat
  | 0, _, _ => 0
  | fuel + 1, a, b =>
    let m := bestMatch a b
    if m.2.2 = 0 then 0
    else
      matchesCountFuel fuel (a.take m.1) (b.take m.2.1) + m.2.2 +
        matchesCountFuel fuel (a.drop (m.1 + m.2.2)) (b.drop (m.2.1 + m.2.2))

/-- Total size of difflib's matching blocks. -/
def matchesCount (a b : List Char) : Nat :=
  matchesCountFuel (a.length + b.length + 1) a b

/-- `difflib`'s `_calculate_ratio`: `2*M/T`, or `1.0` for two empty
sequences. -/
def pyRatio (a b : List Char) : ℚ :=
  if a.length + b.length = 0 then 1
  else 2 * (matchesCount a b : ℚ) / ((a.length + b.length : Nat) : ℚ)

/-- `ValidationService._fuzzy_similarity` (lines 368-387): sequence ratio
gated by the length-adaptive threshold (`min` length ≤ 4 → 0.70, ≤ 10 →
0.75, otherwise the `FUZZY_THRESHOLD` 0.80); below threshold the score
collapses to 0. -/
def fuzzy_similarity (str1 str2 : String) : ℚ :=
  let ratio := pyRatio str1.data str2.data
  let min_len := min str1.length str2.length
  let threshold : ℚ :=
    if min_len ≤ 4 then 7/10
    else if min_len ≤ 10 then 3/4
    else 4/5
  if threshold ≤ ratio then ratio else 0

/-- Python's `round(q, 3)` on exact rationals: round to the nearest multiple
of `1/1000`, ties to even. -/
def round3 (q : ℚ) : ℚ :=
  let scaled := q * 1000
  let f : Int := ⌊scaled⌋
  let r := scaled - f
  if r < 1/2 then f / 1000
  else if 1/2 < r then (f + 1) / 1000
  else (if 2 ∣ f then f else f + 1) / 1000

/-! ## Validation matcher: the five-tier cascade (lines 151-286) -/

/-- The outcome fields of `validate_data`'s matching phase. -/
structure MatchOutcome where
  matched_rule : Option Rule
  matched_rule_product_name : Option String
  match_type : Option String
  match_score : Option ℚ
  validation_status : String

/-- Tier 1 (lines 156-166): first rule, then first candidate, whose
normalized candidate is among the normalized products. -/
def tier1 (expanded : List (Rule × List String)) (products : List String) :
    Option (Rule × String) :=
  expanded.findSome? fun er =>
    (er.2.find? fun c => products.contains c).map fun c => (er.1, c)

/-- `rule_product_normalized in product_name or product_name in
rule_product_normalized` (substring containment either way). -/
def isSubList (needle hay : List Char) : Bool :=
  if needle.isPrefixOf hay then true
  else
    match hay with
    | [] => false
    | _ :: t => isSubList needle t

/-- Python's `needle in hay` on strings. -/
def isSubstr (needle hay : String) : Bool :=
  isSubList needle.data hay.data

/-- Tier 2 (lines 168-185): first rule, then first candidate, that contains
or is contained in some normalized product. -/
def tier2 (expanded : List (Rule × List String)) (products : List String) :
    Option (Rule × String) :=
  expanded.findSome? fun er =>
    (er.2.find? fun c =>
      products.any fun p => isSubstr c p || isSubstr p c).map
      fun c => (er.1, c)

/-- The `score > best_score` update shared by tiers 3 and 4. -/
def bestStep (score : String → String → ℚ) (rule : Rule) (c : String)
    (acc : ℚ × Option (Rule × String)) (p : String) :
    ℚ × Option (Rule × String) :=
  let s := score c p
  if s > acc.1 then (s, Option.some (rule, c)) else acc

/-- The triple loop of tiers 3 and 4 (lines 192-200 / 214-222): track the
best-scoring (rule, candidate) pair over all rule/candidate/product
combinations, first strict improver kept on ties. -/
def bestPairFold (score : String → String → ℚ)
    (expanded : List (Rule × List String)) (products : List String) :
    ℚ × Option (Rule × String) :=
  expanded.foldl
    (fun acc er =>
      er.2.foldl (fun acc c => products.foldl (bestStep score er.1 c) acc)
        acc)
    (0, Option.none)

/-- The tier-5 update (lines 240-245): identical, but guarded by
`score > 0.0`. -/
def posStep (score : String → String → ℚ) (rule : Rule) (c : String)
    (acc : ℚ × Option (Rule × String)) (p : String) :
    ℚ × Option (Rule × String) :=
  let s := score c p
  if s > 0 then (if s > acc.1 then (s, Option.some (rule, c)) else acc)
  else acc

/-- The triple loop of tier 5 (lines 236-245). -/
def bestPairFoldPos (score : String → String → ℚ)
    (expanded : List (Rule × List String)) (products : List String) :
    ℚ × Option (Rule × String) :=
  expanded.foldl
    (fun acc er =>
      er.2.foldl (fun acc c => products.foldl (posStep score er.1 c) acc)
        acc)
    (0, Option.none)

/-- Tier 3 gate (lines 202-206): a best pair exists and its score clears
`TOKEN_OVERLAP_THRESHOLD = 0.6`. -/
def tier3pick (expanded : List (Rule × List String))
    (products : List String) : Option (Rule × String × ℚ) :=
  let best := bestPairFold token_overlap_score expanded products
  match best.2 with
  | Option.some rc =>
    if best.1 ≥ 3/5 then Option.some (rc.1, rc.2, best.1) else Option.none
  | Option.none => Option.none

/-- Tier 4 gate (lines 224-228): `STEM_OVERLAP_THRESHOLD = 0.5`. -/
def tier4pick (stem : String → String)
    (expanded : List (Rule × List String)) (products : List String) :
    Option (Rule × String × ℚ) :=
  let best := bestPairFold (stem_based_overlap_score stem) expanded products
  match best.2 with
  | Option.some rc =>
    if best.1 ≥ 1/2 then Option.some (rc.1, rc.2, best.1) else Option.none
  | Option.none => Option.none

/-- Tier 5 gate (lines 247-251): any recorded pair wins, no threshold. -/
def tier5pick (expanded : List (Rule × List String))
    (products : List String) : Option (Rule × String × ℚ) :=
  let best := bestPairFoldPos fuzzy_similarity expanded products
  best.2.map fun rc => (rc.1, rc.2, best.1)

/-- The matching cascade of `validate_data` (lines 151-286), from expanded
rules and normalized products to the reported outcome. Scores of tiers 3-5
pass through `round(best_score, 3)`; tiers 1-2 report the literal scores
1.0 and 0.9. -/
def matchCascade (stem : String → String)
    (expanded : List (Rule × List String)) (products : List String) :
    MatchOutcome :=
  match tier1 expanded products with
  | Option.some rc =>
    ⟨Option.some rc.1, Option.some rc.2, Option.some "exact",
     Option.some 1, "approved"⟩
  | Option.none =>
  match tier2 expanded products with
  | Option.some rc =>
    ⟨Option.some rc.1, Option.some rc.2, Option.some "contains",
     Option.some (9/10), "approved"⟩
  | Option.none =>
  match tier3pick expanded products with
  | Option.some rcs =>
    ⟨Option.some rcs.1, Option.some rcs.2.1, Option.some "token_overlap",
     Option.some (round3 rcs.2.2), "approved"⟩
  | Option.none =>
  match tier4pick stem expanded products with
  | Option.some rcs =>
    ⟨Option.some rcs.1, Option.some rcs.2.1, Option.some "stem_overlap",
     Option.some (round3 rcs.2.2), "approved"⟩
  | Option.none =>
  match tier5pick expanded products with
  | Option.some rcs =>
    ⟨Option.some rcs.1, Option.some rcs.2.1, Option.some "fuzzy",
     Option.some (round3 rcs.2.2), "approved"⟩
  | Option.none =>
    ⟨Option.none, Option.none, Option.none, Option.none, "rejected"⟩

/-- The product-matching phase of `validate_data` (lines 114-286):
normalize the extracted names (dropping empty normalisations), expand the
rules, reject outright when no usable rule exists, otherwise run the
cascade. -/
def validateProducts (stem : String → String) (rules : List Rule)
    (extracted_product_names : List String) : MatchOutcome :=
  let normalized_products :=
    (extracted_product_names.map normalize_text).filter (· ≠ "")
  let expanded_rules := expandRules rules
  if rules.isEmpty ∨ expanded_rules.isEmpty then
    ⟨Option.none, Option.none, Option.none, Option.none, "rejected"⟩
  else matchCascade stem expanded_rules normalized_products

/-! ## Declarative vocabulary for the cascade theorems -/

/-- All (rule, candidate) pairs in rule-then-candidate iteration order. -/
def flatPairs (expanded : List (Rule × List String)) :
    List (Rule × String) :=
  expanded.flatMap fun er => er.2.map fun c => (er.1, c)

/-- All ((rule, candidate), product) combinations in iteration order. -/
def flatTriples (expanded : List (Rule × List String))
    (products : List String) : List ((Rule × String) × String) :=
  expanded.flatMap fun er =>
    er.2.flatMap fun c => products.map fun p => ((er.1, c), p)

/-- The global maximum of a score function over all rule/candidate/product
combinations (0 when there are none). -/
def maxScore (score : String → String → ℚ)
    (expanded : List (Rule × List String)) (products : List String) : ℚ :=
  ((flatTriples expanded products).map fun t => score t.1.2 t.2).foldl
    max 0

/-! ## Theorems for claims C1 and C5 -/

/-- C1 counterexample: a run whose detection, extraction and preparation
stages succeed but whose AI-organize stage fails (the LLM call raises)
terminates with `success = false` and no `formatted_data` — the pipeline
aborts instead of degrading and continuing to the formatting stage. -/
theorem process_org_failure_counterexample :
    (process ⟨true, true, "high"⟩ ⟨true, Option.none⟩
        ⟨true, Option.none, [("Field_A", .str "v")]⟩
        (organize (fun _ => []) (Except.error "LLM call failed")
          [("Field_A", .str "v")])
        (fun d => .dict d)).success = false ∧
    (process ⟨true, true, "high"⟩ ⟨true, Option.none⟩
        ⟨true, Option.none, [("Field_A", .str "v")]⟩
        (organize (fun _ => []) (Except.error "LLM call failed")
          [("Field_A", .str "v")])
        (fun d => .dict d)).formatted_data = Option.none ∧
    (process ⟨true, true, "high"⟩ ⟨true, Option.none⟩
        ⟨true, Option.none, [("Field_A", .str "v")]⟩
        (organize (fun _ => []) (Except.error "LLM call failed")
          [("Field_A", .str "v")])
        (fun d => .dict d)).error = Option.some "LLM call failed" :=
  ⟨rfl, rfl, rfl⟩

/-- C1 (amended): whenever the AI-organize stage fails, the pipeline aborts:
the terminal result has `success = false` and contains no `formatted_data`
(rather than degrading `unformatted_data` to `{}` and continuing to the
formatting stage). -/
theorem process_aborts_on_organizer_failure :
    ∀ (detection : Detection) (extraction : ExtractionReply)
      (prep : PrepReply) (organization : OrgResult)
      (format : List (String × PyVal) → PyVal),
      organization.success = false →
      (process detection extraction prep organization format).success = false ∧
      (process detection extraction prep organization format).formatted_data
        = Option.none := by
  intro detection extraction prep organization format h
  cases hf : detection.is_fillable <;> cases he : extraction.success <;>
    cases hp : prep.success <;>
      simp [process, hf, he, hp, h]

/-- Witness for `process_aborts_on_organizer_failure` at a concrete failing
organization result. -/
theorem process_aborts_on_organizer_failure_witness :
    (process ⟨true, true, "high"⟩ ⟨true, Option.none⟩ ⟨true, Option.none, []⟩
        ⟨false, Option.some "boom", []⟩ (fun d => .dict d)).success = false ∧
    (process ⟨true, true, "high"⟩ ⟨true, Option.none⟩ ⟨true, Option.none, []⟩
        ⟨false, Option.some "boom", []⟩
        (fun d => .dict d)).formatted_data = Option.none :=
  process_aborts_on_organizer_failure ⟨true, true, "high"⟩ ⟨true, Option.none⟩
    ⟨true, Option.none, []⟩ ⟨false, Option.some "boom", []⟩ (fun d => .dict d)
    rfl

/-- C5 counterexample: on an empty field set `organize` reports
`success = false` (with error `"No fields to organize"`), not
`success = true` as claimed. -/
theorem organize_empty_counterexample :
    (organize (fun _ => []) (Except.ok ⟨true, "{}", Option.none⟩) []).success
      = false ∧
    (organize (fun _ => []) (Except.ok ⟨true, "{}", Option.none⟩) []).error
      = Option.some "No fields to organize" :=
  ⟨rfl, rfl⟩

/-- C5 (amended): on an empty field set `organize` short-circuits to
`{success: false, error: "No fields to organize", organized_data: {}}`
without invoking the LLM: the result is the same for every chat collaborator
and every response parser. -/
theorem organize_empty_short_circuit :
    ∀ (parse : String → List (String × PyVal))
      (chat chat' : Except String ChatResponse),
      organize parse chat []
        = ⟨false, Option.some "No fields to organize", []⟩ ∧
      organize parse chat [] = organize parse chat' [] := by
  intro parse chat chat'
  exact ⟨rfl, rfl⟩

/-! ## Theorems for claims C8 and C9 -/

/-- C8: `format_checkbox` is total with output always exactly `"Yes"` or
`"No"`: `None` maps to `"No"`, booleans map to `"Yes"`/`"No"`, a trimmed
case-insensitive member of `{yes, y, true, 1, /1, /yes, x, checked}` maps to
`"Yes"` and every other string to `"No"`; on the eleven inputs listed in the
spec the output is exactly `"Yes"` or `"No"`. -/
theorem format_checkbox_total_yes_no :
    (∀ v : PyVal, format_checkbox v = "Yes" ∨ format_checkbox v = "No") ∧
    format_checkbox .none = "No" ∧
    (∀ b : Bool, format_checkbox (.bool b) = if b then "Yes" else "No") ∧
    (∀ s : String,
      format_checkbox (.str s) =
        if lowerStrip s ∈ checkboxYesTokens then "Yes" else "No") ∧
    ([PyVal.bool true, PyVal.bool false, PyVal.str "yes", PyVal.str "No",
      PyVal.str "1", PyVal.str "/1", PyVal.str "x", PyVal.str "checked",
      PyVal.str "off", PyVal.str "Unchecked", PyVal.none].map format_checkbox
      = ["Yes", "No", "Yes", "No", "Yes", "Yes", "Yes", "Yes", "No", "No",
         "No"]) := by
  refine ⟨?_, rfl, ?_, ?_, by decide⟩
  · intro v
    cases v with
    | bool b => cases b <;> simp [format_checkbox]
    | str s =>
      by_cases h : lowerStrip s ∈ checkboxYesTokens <;>
        simp [format_checkbox, h]
    | _ => simp [format_checkbox]
  · intro b; cases b <;> rfl
  · intro s; rfl

/-- C9 counterexample: the literal token `"null"` is non-empty and belongs to
neither recognised token set, yet `_is_checkbox_checked` reports the checkbox
as unchecked — the fallback is not fail-open for every non-empty
unrecognised token. -/
theorem is_checkbox_checked_null_counterexample :
    is_checkbox_checked (Option.some "null") Option.none = false ∧
    ¬ "null" ∈ checkboxTrueValues ∧
    ¬ "null" ∈ checkboxFalseValues ∧
    "null" ≠ "" := by decide

/-- C9 (amended): a field-state token outside both recognised token sets is
treated as checked whenever, after stripping, it is non-empty and also not
one of the literal strings `"None"` and `"null"`, which the fallback treats
as unchecked. -/
theorem is_checkbox_checked_fail_open :
    ∀ (s : String) (app : Option String),
      ¬ pyStrip s ∈ checkboxTrueValues →
      ¬ pyStrip s ∈ checkboxFalseValues →
      ¬ pyStrip s ∈ ["", "None", "null"] →
      is_checkbox_checked (Option.some s) app = true := by
  intro s app h1 h2 h3
  simp [is_checkbox_checked, h1, h2, h3]

/-- Witness for `is_checkbox_checked_fail_open` at the concrete token
`"/Custom"`. -/
theorem is_checkbox_checked_fail_open_witness :
    is_checkbox_checked (Option.some "/Custom") Option.none = true :=
  is_checkbox_checked_fail_open "/Custom" Option.none
    (by decide) (by decide) (by decide)

/-! ## Sequence-matcher lemmas: the recursion budget of `matchesCountFuel`
is irrelevant once it exceeds the total length -/

theorem runLen_le_left : ∀ (a b : List Char), runLen a b ≤ a.length
  | [], _ => by simp [runLen]
  | _ :: _, [] => by simp [runLen]
  | a :: as, b :: bs => by
    by_cases h : a = b <;> simp [runLen, h]
    have := runLen_le_left as bs
    omega

theorem runLen_le_right : ∀ (a b : List Char), runLen a b ≤ b.length
  | [], _ => by simp [runLen]
  | _ :: _, [] => by simp [runLen]
  | a :: as, b :: bs => by
    by_cases h : a = b <;> simp [runLen, h]
    have := runLen_le_right as bs
    omega

theorem bestMatch_bounds (a b : List Char) :
    (bestMatch a b).2.2 = 0 ∨
      ((bestMatch a b).1 + (bestMatch a b).2.2 ≤ a.length ∧
       (bestMatch a b).2.1 + (bestMatch a b).2.2 ≤ b.length) := by
  have hmem : ∀ ij ∈ allStarts a.length b.length,
      ij.1 < a.length ∧ ij.2 < b.length := by
    intro ij hij
    unfold allStarts at hij
    simp only [List.mem_flatMap, List.mem_map, List.mem_range] at hij
    obtain ⟨i, hi, j, hj, rfl⟩ := hij
    exact ⟨hi, hj⟩
  have main : ∀ (l : List (Nat × Nat)) (acc : Nat × Nat × Nat),
      (∀ ij ∈ l, ij.1 < a.length ∧ ij.2 < b.length) →
      (acc.2.2 = 0 ∨ (acc.1 + acc.2.2 ≤ a.length ∧
        acc.2.1 + acc.2.2 ≤ b.length)) →
      ((l.foldl (fun acc ij =>
          let s := runLen (a.drop ij.1) (b.drop ij.2)
          if s > acc.2.2 then (ij.1, ij.2, s) else acc) acc).2.2 = 0 ∨
        ((l.foldl (fun acc ij =>
          let s := runLen (a.drop ij.1) (b.drop ij.2)
          if s > acc.2.2 then (ij.1, ij.2, s) else acc) acc).1 +
          (l.foldl (fun acc ij =>
          let s := runLen (a.drop ij.1) (b.drop ij.2)
          if s > acc.2.2 then (ij.1, ij.2, s) else acc) acc).2.2 ≤ a.length ∧
         (l.foldl (fun acc ij =>
          let s := runLen (a.drop ij.1) (b.drop ij.2)
          if s > acc.2.2 then (ij.1, ij.2, s) else acc) acc).2.1 +
          (l.foldl (fun acc ij =>
          let s := runLen (a.drop ij.1) (b.drop ij.2)
          if s > acc.2.2 then (ij.1, ij.2, s) else acc) acc).2.2 ≤ b.length)) := by
    intro l
    induction l with
    | nil => intro acc _ hacc; simpa using hacc
    | cons ij t ih =>
      intro acc hl hacc
      rw [List.foldl_cons]
      refine ih _ (fun x hx => hl x (List.mem_cons_of_mem _ hx)) ?_
      obtain ⟨hi, hj⟩ := hl ij (List.mem_cons_self ij t)
      by_cases hs : runLen (a.drop ij.1) (b.drop ij.2) > acc.2.2
      · right
        simp only [hs, if_pos]
        constructor
        · have h1 := runLen_le_left (a.drop ij.1) (b.drop ij.2)
          rw [List.length_drop] at h1
          simp
          omega
        · have h2 := runLen_le_right (a.drop ij.1) (b.drop ij.2)
          rw [List.length_drop] at h2
          simp
          omega
      · simp only [hs, if_neg, if_false]
        simpa using hacc
  exact main (allStarts a.length b.length) (0, 0, 0) hmem (Or.inl rfl)

theorem matchesCountFuel_congr :
    ∀ (n m : Nat) (a b : List Char), a.length + b.length < n →
      a.length + b.length < m →
      matchesCountFuel n a b = matchesCountFuel m a b := by
  intro n
  induction n with
  | zero => intro m a b h _; omega
  | succ n ih =>
    intro m a b hn hm
    cases m with
    | zero => omega
    | succ m =>
      simp only [matchesCountFuel]
      by_cases h0 : (bestMatch a b).2.2 = 0
      · simp [h0]
      · simp only [h0, if_false]
        rcases bestMatch_bounds a b with hb | ⟨h1, h2⟩
        · exact absurd hb h0
        · have h3 : 1 ≤ (bestMatch a b).2.2 := Nat.one_le_iff_ne_zero.mpr h0
          have t1 : (a.take (bestMatch a b).1).length ≤ (bestMatch a b).1 := by
            rw [List.length_take]
            exact Nat.min_le_left _ _
          have t2 : (b.take (bestMatch a b).2.1).length ≤
              (bestMatch a b).2.1 := by
            rw [List.length_take]
            exact Nat.min_le_left _ _
          have d1 : (a.drop ((bestMatch a b).1 + (bestMatch a b).2.2)).length
              = a.length - ((bestMatch a b).1 + (bestMatch a b).2.2) :=
            List.length_drop ..
          have d2 : (b.drop ((bestMatch a b).2.1 + (bestMatch a b).2.2)).length
              = b.length - ((bestMatch a b).2.1 + (bestMatch a b).2.2) :=
            List.length_drop ..
          have e1 := ih m (a.take (bestMatch a b).1)
            (b.take (bestMatch a b).2.1) (by omega) (by omega)
          have e2 := ih m (a.drop ((bestMatch a b).1 + (bestMatch a b).2.2))
            (b.drop ((bestMatch a b).2.1 + (bestMatch a b).2.2))
            (by omega) (by omega)
          rw [e1, e2]

/-! ## Best-pair fold lemmas (tiers 3-5 of the cascade) -/

theorem init_le_foldl_max (l : List ℚ) :
    ∀ a : ℚ, a ≤ l.foldl max a := by
  induction l with
  | nil => intro a; simp
  | cons x t ih =>
    intro a
    calc a ≤ max a x := le_max_left a x
    _ ≤ t.foldl max (max a x) := ih (max a x)

theorem le_foldl_max {x : ℚ} {l : List ℚ} (h : x ∈ l) :
    ∀ a : ℚ, x ≤ l.foldl max a := by
  induction l with
  | nil => simp at h
  | cons y t ih =>
    intro a
    rw [List.foldl_cons]
    rcases List.mem_cons.mp h with h1 | h1
    · subst h1
      calc x ≤ max a x := le_max_right a x
      _ ≤ t.foldl max (max a x) := init_le_foldl_max t (max a x)
    · exact ih h1 (max a y)

theorem foldl_max_of_le {l : List ℚ} :
    ∀ a : ℚ, (∀ x ∈ l, x ≤ a) → l.foldl max a = a := by
  induction l with
  | nil => intro a _; rfl
  | cons y t ih =>
    intro a h
    rw [List.foldl_cons, max_eq_left (h y (List.mem_cons_self y t))]
    exact ih a fun x hx => h x (List.mem_cons_of_mem _ hx)

/-- The value computed by the strict-improvement fold of tiers 3-5 is the
maximum of the scores (seeded with the incoming best). -/
theorem best_fold_fst {β : Type} (sc : β → ℚ) (pick : β → Rule × String) :
    ∀ (L : List β) (acc : ℚ × Option (Rule × String)),
      (L.foldl (fun acc t =>
        if sc t > acc.1 then (sc t, Option.some (pick t)) else acc) acc).1
        = (L.map sc).foldl max acc.1 := by
  intro L
  induction L with
  | nil => intro acc; rfl
  | cons t L' ih =>
    intro acc
    rw [List.foldl_cons, List.map_cons, List.foldl_cons, ih]
    by_cases h : sc t > acc.1
    · simp only [h, if_pos]
      rw [max_eq_right (le_of_lt h)]
    · simp only [h, if_neg, if_false]
      rw [max_eq_left (le_of_not_lt h)]

/-- If no score beats the incoming best, the fold is the identity. -/
theorem best_fold_unchanged {β : Type} (sc : β → ℚ) (pick : β → Rule × String) :
    ∀ (L : List β) (acc : ℚ × Option (Rule × String)),
      (∀ t ∈ L, sc t ≤ acc.1) →
      L.foldl (fun acc t =>
        if sc t > acc.1 then (sc t, Option.some (pick t)) else acc) acc
        = acc := by
  intro L
  induction L with
  | nil => intro acc _; rfl
  | cons t L' ih =>
    intro acc h
    rw [List.foldl_cons]
    have h1 : ¬ sc t > acc.1 := not_lt.mpr (h t (List.mem_cons_self t L'))
    simp only [h1, if_neg, if_false]
    exact ih acc fun x hx => h x (List.mem_cons_of_mem _ hx)

/-- When some score strictly beats the incoming best, the fold selects the
first entry attaining the maximum. -/
theorem best_fold_snd {β : Type} (sc : β → ℚ) (pick : β → Rule × String) :
    ∀ (L : List β) (acc : ℚ × Option (Rule × String)),
      acc.1 < (L.map sc).foldl max acc.1 →
      (L.foldl (fun acc t =>
        if sc t > acc.1 then (sc t, Option.some (pick t)) else acc) acc).2
        = (L.find? fun t =>
            decide (sc t = (L.map sc).foldl max acc.1)).map pick := by
  intro L
  induction L with
  | nil => intro acc h; simp at h
  | cons t L' ih =>
    intro acc hlt
    rw [List.map_cons, List.foldl_cons] at hlt
    rw [List.foldl_cons, List.map_cons, List.foldl_cons]
    by_cases hgt : sc t > acc.1
    · rw [if_pos hgt]
      rw [max_eq_right (le_of_lt hgt)] at hlt ⊢
      by_cases hall : ∀ t' ∈ L', sc t' ≤ sc t
      · have hM : (L'.map sc).foldl max (sc t) = sc t := by
          apply foldl_max_of_le
          intro x hx
          obtain ⟨t', ht', rfl⟩ := List.mem_map.mp hx
          exact hall t' ht'
        rw [hM]
        rw [List.find?_cons_of_pos _ (by simp)]
        rw [best_fold_unchanged sc pick L' (sc t, Option.some (pick t))
          (by intro x hx; exact hall x hx)]
        rfl
      · push_neg at hall
        obtain ⟨t', ht', hbig⟩ := hall
        have hlt' : sc t < (L'.map sc).foldl max (sc t) :=
          lt_of_lt_of_le hbig (le_foldl_max (List.mem_map_of_mem sc ht') _)
        have hne : ¬ (sc t = (L'.map sc).foldl max (sc t)) := ne_of_lt hlt'
        rw [List.find?_cons_of_neg _ (by simpa using hne)]
        exact ih (sc t, Option.some (pick t)) hlt'
    · rw [if_neg hgt]
      rw [max_eq_left (le_of_not_lt hgt)] at hlt ⊢
      have hne : ¬ (sc t = (L'.map sc).foldl max acc.1) := by
        intro he
        exact hgt (he ▸ hlt)
      rw [List.find?_cons_of_neg _ (by simpa using hne)]
      exact ih acc hlt

/-- The first-match search shared by tiers 1 and 2 equals a `find?` over the
flattened (rule, candidate) list. -/
theorem findSome_first_eq (pr : String → Bool) :
    ∀ expanded : List (Rule × List String),
      (expanded.findSome? fun er =>
        (er.2.find? pr).map fun c => (er.1, c))
        = (flatPairs expanded).find? fun rc => pr rc.2 := by
  have hmap : ∀ (rule : Rule) (cs : List String),
      ((cs.map fun c => (rule, c)).find? fun rc => pr rc.2)
        = (cs.find? pr).map fun c => (rule, c) := by
    intro rule cs
    induction cs with
    | nil => rfl
    | cons c t ih =>
      by_cases h : pr c
      · rw [List.map_cons, List.find?_cons_of_pos _ (by simpa using h),
          List.find?_cons_of_pos _ h]
        rfl
      · rw [List.map_cons, List.find?_cons_of_neg _ (by simpa using h),
          List.find?_cons_of_neg _ h, ih]
  intro expanded
  induction expanded with
  | nil => rfl
  | cons er t ih =>
    rw [List.findSome?_cons]
    have hfp : flatPairs (er :: t)
        = (er.2.map fun c => (er.1, c)) ++ flatPairs t := by
      unfold flatPairs
      rw [List.flatMap_cons]
    rw [hfp, List.find?_append, hmap er.1 er.2]
    cases er.2.find? pr with
    | none => rw [ih]; rfl
    | some c => rfl

/-- The nested triple loop of tiers 3-4 equals a single fold over the
flattened ((rule, candidate), product) list. -/
theorem bestPairFold_eq_flat (score : String → String → ℚ)
    (expanded : List (Rule × List String)) (products : List String) :
    bestPairFold score expanded products
      = (flatTriples expanded products).foldl
          (fun acc t => if score t.1.2 t.2 > acc.1
            then (score t.1.2 t.2, Option.some t.1) else acc)
          (0, Option.none) := by
  have hprod : ∀ (rule : Rule) (c : String) (ps : List String)
      (acc : ℚ × Option (Rule × String)),
      ps.foldl (bestStep score rule c) acc
        = (ps.map fun p => ((rule, c), p)).foldl
            (fun acc t => if score t.1.2 t.2 > acc.1
              then (score t.1.2 t.2, Option.some t.1) else acc) acc := by
    intro rule c ps
    induction ps with
    | nil => intro acc; rfl
    | cons p pt ih =>
      intro acc
      rw [List.foldl_cons, List.map_cons, List.foldl_cons, ih]
      rfl
  have hcand : ∀ (rule : Rule) (cs : List String)
      (acc : ℚ × Option (Rule × String)),
      cs.foldl (fun acc c => products.foldl (bestStep score rule c) acc) acc
        = (cs.flatMap fun c => products.map fun p => ((rule, c), p)).foldl
            (fun acc t => if score t.1.2 t.2 > acc.1
              then (score t.1.2 t.2, Option.some t.1) else acc) acc := by
    intro rule cs
    induction cs with
    | nil => intro acc; rfl
    | cons c ct ih =>
      intro acc
      rw [List.foldl_cons, List.flatMap_cons, List.foldl_append, ih,
        hprod rule c products acc]
  have main : ∀ (l : List (Rule × List String))
      (acc : ℚ × Option (Rule × String)),
      l.foldl (fun acc er =>
        er.2.foldl (fun acc c => products.foldl (bestStep score er.1 c) acc)
          acc) acc
        = (flatTriples l products).foldl
            (fun acc t => if score t.1.2 t.2 > acc.1
              then (score t.1.2 t.2, Option.some t.1) else acc) acc := by
    intro l
    induction l with
    | nil => intro acc; rfl
    | cons er t ih =>
      intro acc
      have hft : flatTriples (er :: t) products
          = (er.2.flatMap fun c => products.map fun p => ((er.1, c), p))
            ++ flatTriples t products := by
        unfold flatTriples
        rw [List.flatMap_cons]
      rw [List.foldl_cons, hft, List.foldl_append, ih, hcand er.1 er.2 acc]
  exact main expanded (0, Option.none)

/-- Tier 5's `score > 0.0` guard is redundant for a non-negative score
function: its triple loop equals the tier 3-4 loop. -/
theorem bestPairFoldPos_eq_bestPairFold (score : String → String → ℚ)
    (hnn : ∀ c p, 0 ≤ score c p)
    (expanded : List (Rule × List String)) (products : List String) :
    bestPairFoldPos score expanded products
      = bestPairFold score expanded products := by
  have hprod : ∀ (rule : Rule) (c : String) (ps : List String)
      (acc : ℚ × Option (Rule × String)), 0 ≤ acc.1 →
      ps.foldl (posStep score rule c) acc
        = ps.foldl (bestStep score rule c) acc ∧
      0 ≤ (ps.foldl (bestStep score rule c) acc).1 := by
    intro rule c ps
    induction ps with
    | nil => intro acc h; exact ⟨rfl, h⟩
    | cons p pt ih =>
      intro acc h
      rw [List.foldl_cons, List.foldl_cons]
      have hstep : posStep score rule c acc p = bestStep score rule c acc p
          := by
        unfold posStep bestStep
        by_cases h0 : score c p > 0
        · rw [if_pos h0]
        · rw [if_neg h0]
          have : ¬ score c p > acc.1 :=
            fun hgt => h0 (lt_of_le_of_lt h hgt)
          rw [if_neg this]
      have hnext : 0 ≤ (bestStep score rule c acc p).1 := by
        unfold bestStep
        by_cases hgt : score c p > acc.1
        · rw [if_pos hgt]
          exact hnn c p
        · rw [if_neg hgt]
          exact h
      rw [hstep]
      exact ih (bestStep score rule c acc p) hnext
  have hcand : ∀ (rule : Rule) (cs : List String)
      (acc : ℚ × Option (Rule × String)), 0 ≤ acc.1 →
      cs.foldl (fun acc c => products.foldl (posStep score rule c) acc) acc
        = cs.foldl (fun acc c => products.foldl (bestStep score rule c) acc)
            acc ∧
      0 ≤ (cs.foldl
        (fun acc c => products.foldl (bestStep score rule c) acc) acc).1 := by
    intro rule cs
    induction cs with
    | nil => intro acc h; exact ⟨rfl, h⟩
    | cons c ct ih =>
      intro acc h
      rw [List.foldl_cons, List.foldl_cons]
      obtain ⟨he, hp⟩ := hprod rule c products acc h
      rw [he]
      exact ih (products.foldl (bestStep score rule c) acc) hp
  have main : ∀ (l : List (Rule × List String))
      (acc : ℚ × Option (Rule × String)), 0 ≤ acc.1 →
      l.foldl (fun acc er =>
        er.2.foldl (fun acc c => products.foldl (posStep score er.1 c) acc)
          acc) acc
        = l.foldl (fun acc er =>
            er.2.foldl
              (fun acc c => products.foldl (bestStep score er.1 c) acc) acc)
            acc := by
    intro l
    induction l with
    | nil => intro acc _; rfl
    | cons er t ih =>
      intro acc h
      rw [List.foldl_cons, List.foldl_cons]
      obtain ⟨he, hp⟩ := hcand er.1 er.2 acc h
      rw [he]
      exact ih _ hp
  exact main expanded (0, Option.none) le_rfl

theorem token_overlap_score_nonneg (l r : String) :
    0 ≤ token_overlap_score l r := by
  unfold token_overlap_score
  dsimp only
  split
  · exact le_refl 0
  · split
    · exact le_refl 0
    · split
      · exact le_refl 0
      · positivity

theorem stem_based_overlap_score_nonneg (stem : String → String)
    (l r : String) : 0 ≤ stem_based_overlap_score stem l r := by
  unfold stem_based_overlap_score
  dsimp only
  split
  · exact le_refl 0
  · split
    · exact le_refl 0
    · split
      · exact le_refl 0
      · positivity

theorem pyRatio_nonneg (a b : List Char) : 0 ≤ pyRatio a b := by
  unfold pyRatio
  split
  · norm_num
  · positivity

/-- Every non-zero fuzzy similarity clears its threshold, and every
threshold is at least 0.70. -/
theorem fuzzy_similarity_cases (s1 s2 : String) :
    fuzzy_similarity s1 s2 = 0 ∨ 7/10 ≤ fuzzy_similarity s1 s2 := by
  unfold fuzzy_similarity
  dsimp only
  split_ifs <;> first
    | (left; rfl)
    | (right; linarith)

theorem fuzzy_similarity_nonneg (s1 s2 : String) :
    0 ≤ fuzzy_similarity s1 s2 := by
  rcases fuzzy_similarity_cases s1 s2 with h | h
  · rw [h]
  · linarith

theorem round3_ge_of_ge {q : ℚ} (h : 7/10 ≤ q) : 7/10 ≤ round3 q := by
  unfold round3
  dsimp only
  have hf : (700 : ℤ) ≤ ⌊q * 1000⌋ := by
    apply Int.le_floor.mpr
    push_cast
    linarith
  have hfq : (700 : ℚ) ≤ (⌊q * 1000⌋ : ℚ) := by exact_mod_cast hf
  split
  · rw [le_div_iff (by norm_num : (0:ℚ) < 1000)]
    linarith
  · split
    · rw [le_div_iff (by norm_num : (0:ℚ) < 1000)]
      push_cast
      linarith
    · split
      · rw [le_div_iff (by norm_num : (0:ℚ) < 1000)]
        linarith
      · rw [le_div_iff (by norm_num : (0:ℚ) < 1000)]
        push_cast
        linarith

theorem contains_iff_mem {l : List String} {a : String} :
    l.contains a = true ↔ a ∈ l := by
  simp [List.contains, List.elem_iff]

theorem foldl_max_mem : ∀ (l : List ℚ) (a : ℚ),
    l.foldl max a = a ∨ l.foldl max a ∈ l := by
  intro l
  induction l with
  | nil => intro a; exact Or.inl rfl
  | cons x t ih =>
    intro a
    rw [List.foldl_cons]
    rcases ih (max a x) with h | h
    · rw [h]
      rcases max_choice a x with h1 | h1
      · exact Or.inl h1
      · right
        rw [h1]
        exact List.mem_cons_self x t
    · exact Or.inr (List.mem_cons_of_mem _ h)

theorem mem_dedupNonEmptyGo :
    ∀ (l seen : List String) (c : String), c ∈ dedupNonEmptyGo l seen →
      c ≠ "" := by
  intro l
  induction l with
  | nil => intro seen c h; simp [dedupNonEmptyGo] at h
  | cons s t ih =>
    intro seen c h
    unfold dedupNonEmptyGo at h
    split at h
    · rcases List.mem_cons.mp h with h1 | h1
      · subst h1
        next hcond => exact hcond.1
      · exact ih _ c h1
    · exact ih _ c h

/-- Every candidate produced by `_normalized_rule_product_candidates` is a
non-empty string. -/
theorem candidates_ne_empty {v : Option String} {c : String}
    (h : c ∈ normalized_rule_product_candidates v) : c ≠ "" := by
  cases v with
  | none => simp [normalized_rule_product_candidates] at h
  | some raw =>
    unfold normalized_rule_product_candidates at h
    dsimp only at h
    split at h
    · simp at h
    · split at h
      · exact mem_dedupNonEmptyGo _ _ c h
      · split at h
        · next hne =>
          rcases List.mem_cons.mp h with h1 | h1
          · subst h1; exact hne
          · simp at h1
        · simp at h

/-- A rule with candidates contributes its (rule, candidates) entry to the
expanded rule list. -/
theorem mem_expandRules {rules : List Rule} {rule : Rule}
    (h : rule ∈ rules)
    (hc : (normalized_rule_product_candidates rule.product_name).isEmpty
      = false) :
    (rule, normalized_rule_product_candidates rule.product_name)
      ∈ expandRules rules := by
  unfold expandRules
  apply List.mem_filterMap.mpr
  refine ⟨rule, h, ?_⟩
  dsimp only
  rw [hc]
  rfl

/-! ## Theorems for claim C7 -/

/-- C7: the fuzzy tier applies a hard length-adaptive cutoff: whenever the
sequence-similarity ratio is below the applicable threshold (0.70 at
min-length ≤ 4, 0.75 at 5-10, 0.80 above 10), `_fuzzy_similarity` returns
exactly 0 and no fuzzy match can be produced; in particular, two names each
longer than 10 characters with ratio 0.78 (= 39/50) are rejected. -/
theorem fuzzy_threshold_hard_cutoff :
    ∀ s1 s2 : String,
      (min s1.length s2.length ≤ 4 →
        pyRatio s1.data s2.data < 7/10 → fuzzy_similarity s1 s2 = 0) ∧
      (5 ≤ min s1.length s2.length → min s1.length s2.length ≤ 10 →
        pyRatio s1.data s2.data < 3/4 → fuzzy_similarity s1 s2 = 0) ∧
      (10 < min s1.length s2.length →
        pyRatio s1.data s2.data < 4/5 → fuzzy_similarity s1 s2 = 0) ∧
      (10 < min s1.length s2.length →
        pyRatio s1.data s2.data = 39/50 → fuzzy_similarity s1 s2 = 0) := by
  intro s1 s2
  refine ⟨?_, ?_, ?_, ?_⟩
  · intro h4 hr
    unfold fuzzy_similarity
    dsimp only
    rw [if_pos h4, if_neg (not_le.mpr hr)]
  · intro h5 h10 hr
    unfold fuzzy_similarity
    dsimp only
    rw [if_neg (show ¬ min s1.length s2.length ≤ 4 from not_le.mpr h5),
      if_pos h10, if_neg (not_le.mpr hr)]
  · intro h10 hr
    unfold fuzzy_similarity
    dsimp only
    rw [if_neg (show ¬ min s1.length s2.length ≤ 4 from
        not_le.mpr (lt_trans (by norm_num) h10)),
      if_neg (show ¬ min s1.length s2.length ≤ 10 from not_le.mpr h10),
      if_neg (not_le.mpr hr)]
  · intro h10 hr
    unfold fuzzy_similarity
    dsimp only
    rw [if_neg (show ¬ min s1.length s2.length ≤ 4 from
        not_le.mpr (lt_trans (by norm_num) h10)),
      if_neg (show ¬ min s1.length s2.length ≤ 10 from not_le.mpr h10),
      if_neg (not_le.mpr (by rw [hr]; norm_num))]

/-- Witness for `fuzzy_threshold_hard_cutoff` at two concrete 12-character
names with ratio 0.75 < 0.80: the fuzzy score is exactly 0. -/
theorem fuzzy_threshold_hard_cutoff_witness :
    fuzzy_similarity "aaaaaaaaaxyz" "aaaaaaaaapqr" = 0 := by
  have hm : matchesCount "aaaaaaaaaxyz".data "aaaaaaaaapqr".data = 9 := by
    decide
  have hr : pyRatio "aaaaaaaaaxyz".data "aaaaaaaaapqr".data = 3/4 := by
    unfold pyRatio
    rw [hm]
    norm_num
  exact (fuzzy_threshold_hard_cutoff "aaaaaaaaaxyz" "aaaaaaaaapqr").2.2.1
    (by decide) (by rw [hr]; norm_num)

/-! ## Theorems for claim C6 -/

/-- C6: whenever some normalized extracted product name exactly equals some
normalized candidate of some active rule, the matcher reports
`match_type = "exact"` with `match_score = 1.0` and approves — the exact
tier strictly pre-empts all later tiers. -/
theorem validate_exact_preempts (stem : String → String) (rules : List Rule)
    (extracted : List String)
    (h : ∃ rule ∈ rules,
      ∃ c ∈ normalized_rule_product_candidates rule.product_name,
      ∃ name ∈ extracted, normalize_text name = c) :
    (validateProducts stem rules extracted).match_type
      = Option.some "exact" ∧
    (validateProducts stem rules extracted).match_score = Option.some 1 ∧
    (validateProducts stem rules extracted).validation_status
      = "approved" := by
  obtain ⟨rule, hrule, c, hc, name, hname, hnorm⟩ := h
  have hcne : c ≠ "" := candidates_ne_empty hc
  have hcandsne :
      (normalized_rule_product_candidates rule.product_name).isEmpty
        = false := by
    cases hcs : normalized_rule_product_candidates rule.product_name with
    | nil => rw [hcs] at hc; simp at hc
    | cons a t => rfl
  have hexp : (rule, normalized_rule_product_candidates rule.product_name)
      ∈ expandRules rules := mem_expandRules hrule hcandsne
  have hcprod : c ∈ (extracted.map normalize_text).filter (· ≠ "") := by
    apply List.mem_filter.mpr
    refine ⟨hnorm ▸ List.mem_map_of_mem normalize_text hname, by simpa⟩
  have hrules_ne : rules.isEmpty = false := by
    cases rules with
    | nil => simp at hrule
    | cons a t => rfl
  have hexp_ne : (expandRules rules).isEmpty = false := by
    cases hers : expandRules rules with
    | nil => rw [hers] at hexp; simp at hexp
    | cons a t => rfl
  have hval : validateProducts stem rules extracted
      = matchCascade stem (expandRules rules)
          ((extracted.map normalize_text).filter (· ≠ "")) := by
    unfold validateProducts
    dsimp only
    rw [if_neg (by simp [hrules_ne, hexp_ne])]
  rw [hval]
  have htier1 : tier1 (expandRules rules)
      ((extracted.map normalize_text).filter (· ≠ "")) ≠ Option.none := by
    unfold tier1
    rw [findSome_first_eq]
    intro hn
    rw [List.find?_eq_none] at hn
    apply hn (rule, c)
    · unfold flatPairs
      apply List.mem_flatMap.mpr
      exact ⟨(rule, normalized_rule_product_candidates rule.product_name),
        hexp, List.mem_map_of_mem _ hc⟩
    · simpa using contains_iff_mem.mpr hcprod
  cases hrc : tier1 (expandRules rules)
      ((extracted.map normalize_text).filter (· ≠ "")) with
  | none => exact absurd hrc htier1
  | some rc =>
    unfold matchCascade
    rw [hrc]
    exact ⟨rfl, rfl, rfl⟩

/-- Witness for `validate_exact_preempts`: one active rule for
`"Organic Sugar"` matched exactly by the extracted name `"Organic Sugar"`. -/
theorem validate_exact_preempts_witness :
    (validateProducts (fun s => s)
      [⟨1, "certificate", Option.some "Organic Sugar", true⟩]
      ["Organic Sugar"]).match_type = Option.some "exact" ∧
    (validateProducts (fun s => s)
      [⟨1, "certificate", Option.some "Organic Sugar", true⟩]
      ["Organic Sugar"]).match_score = Option.some 1 ∧
    (validateProducts (fun s => s)
      [⟨1, "certificate", Option.some "Organic Sugar", true⟩]
      ["Organic Sugar"]).validation_status = "approved" :=
  validate_exact_preempts (fun s => s)
    [⟨1, "certificate", Option.some "Organic Sugar", true⟩]
    ["Organic Sugar"]
    ⟨⟨1, "certificate", Option.some "Organic Sugar", true⟩, by simp,
      "organic sugar", by decide, "Organic Sugar", by simp, by decide⟩

/-- Strict-improvement fold invariant: when every score is either 0 or at
least 0.70, a recorded best pair forces a best value of at least 0.70. -/
theorem best_fold_inv {β : Type} (sc : β → ℚ) (pick : β → Rule × String)
    (hsc : ∀ t, sc t = 0 ∨ 7/10 ≤ sc t) :
    ∀ (L : List β) (acc : ℚ × Option (Rule × String)),
      0 ≤ acc.1 → (∀ rc, acc.2 = Option.some rc → 7/10 ≤ acc.1) →
      (0 ≤ (L.foldl (fun acc t =>
        if sc t > acc.1 then (sc t, Option.some (pick t)) else acc) acc).1 ∧
      ∀ rc, (L.foldl (fun acc t =>
        if sc t > acc.1 then (sc t, Option.some (pick t)) else acc) acc).2
          = Option.some rc →
        7/10 ≤ (L.foldl (fun acc t =>
          if sc t > acc.1 then (sc t, Option.some (pick t)) else acc)
          acc).1) := by
  intro L
  induction L with
  | nil => intro acc h0 hs; exact ⟨h0, hs⟩
  | cons t L' ih =>
    intro acc h0 hs
    rw [List.foldl_cons]
    by_cases hgt : sc t > acc.1
    · rw [if_pos hgt]
      have hge : 7/10 ≤ sc t := by
        rcases hsc t with h | h
        · rw [h] at hgt
          exact absurd h0 (not_le.mpr hgt)
        · exact h
      exact ih (sc t, Option.some (pick t)) (by dsimp; linarith)
        (fun rc _ => by dsimp; linarith)
    · rw [if_neg hgt]
      exact ih acc h0 hs

/-- A cascade outcome of type `"fuzzy"` carries a score of at least 0.70:
it comes from the tier-5 best fold over scores that are each 0 or at least
0.70, and only a strictly positive best is recorded. -/
theorem cascade_fuzzy_ge (stem : String → String)
    (e : List (Rule × List String)) (p : List String)
    (h : (matchCascade stem e p).match_type = Option.some "fuzzy") :
    ∃ s : ℚ, (matchCascade stem e p).match_score = Option.some s ∧
      7/10 ≤ s := by
  unfold matchCascade at h ⊢
  cases h1 : tier1 e p with
  | some rc => rw [h1] at h; simp at h
  | none =>
  rw [h1] at h
  cases h2 : tier2 e p with
  | some rc => rw [h2] at h; simp at h
  | none =>
  rw [h2] at h
  cases h3 : tier3pick e p with
  | some rcs => rw [h3] at h; simp at h
  | none =>
  rw [h3] at h
  cases h4 : tier4pick stem e p with
  | some rcs => rw [h4] at h; simp at h
  | none =>
  rw [h4] at h
  cases h5 : tier5pick e p with
  | none => rw [h5] at h; simp at h
  | some rcs =>
  refine ⟨round3 rcs.2.2, rfl, ?_⟩
  unfold tier5pick at h5
  rw [bestPairFoldPos_eq_bestPairFold fuzzy_similarity
    (fun c p => fuzzy_similarity_nonneg c p)] at h5
  obtain ⟨rc, hrc2, hrceq⟩ := Option.map_eq_some'.mp h5
  have hflat := bestPairFold_eq_flat fuzzy_similarity e p
  rw [hflat] at hrc2
  have hinv := @best_fold_inv ((Rule × String) × String)
    (fun t => fuzzy_similarity t.1.2 t.2)
    (fun t => t.1)
    (fun t => fuzzy_similarity_cases t.1.2 t.2)
    (flatTriples e p)
    (0, Option.none) le_rfl (by intro rc h; simp at h)
  have hge := hinv.2 rc hrc2
  have hscore : rcs.2.2 = (bestPairFold fuzzy_similarity e p).1 := by
    rw [← hrceq]
  rw [hscore, hflat]
  exact round3_ge_of_ge hge

/-! ## Theorems for claim C10 -/

/-- C10: whenever the matcher reports `match_type = "fuzzy"`, the reported
`match_score` is at least 0.70 (the least of the length-adaptive
thresholds): `_fuzzy_similarity` collapses sub-threshold ratios to 0 and
the fuzzy tier only records strictly positive scores. -/
theorem fuzzy_match_score_ge (stem : String → String) (rules : List Rule)
    (extracted : List String)
    (h : (validateProducts stem rules extracted).match_type
      = Option.some "fuzzy") :
    ∃ s : ℚ, (validateProducts stem rules extracted).match_score
      = Option.some s ∧ 7/10 ≤ s := by
  unfold validateProducts at h ⊢
  dsimp only at h ⊢
  by_cases hre : (rules.isEmpty = true ∨ (expandRules rules).isEmpty = true)
  · rw [if_pos hre] at h
    simp at h
  · rw [if_neg hre] at h ⊢
    exact cascade_fuzzy_ge stem _ _ h

/-- Witness for `fuzzy_match_score_ge`: one active rule for `"abce"` and the
extracted name `"abcd"` (ratio `0.75`, short-string threshold `0.70`) reach
the fuzzy tier, and the reported score is at least `0.70`. -/
theorem fuzzy_match_score_ge_witness :
    ∃ s : ℚ, (validateProducts (fun s => s)
      [⟨1, "certificate", Option.some "abce", true⟩]
      ["abcd"]).match_score = Option.some s ∧ 7/10 ≤ s := by
  apply fuzzy_match_score_ge
  have hm : matchesCount "abce".data "abcd".data = 3 := by decide
  have hr : pyRatio "abce".data "abcd".data = 3/4 := by
    unfold pyRatio
    rw [hm]
    norm_num
  have hfz : fuzzy_similarity "abce" "abcd" = 3/4 := by
    unfold fuzzy_similarity
    dsimp only
    rw [hr, show min "abce".length "abcd".length = 4 from by decide]
    norm_num
  have hbp : bestPairFoldPos fuzzy_similarity
      [(⟨1, "certificate", Option.some "abce", true⟩, ["abce"])] ["abcd"]
      = (3/4, Option.some (⟨1, "certificate", Option.some "abce", true⟩,
          "abce")) := by
    unfold bestPairFoldPos
    simp only [List.foldl_cons, List.foldl_nil]
    unfold posStep
    dsimp only
    rw [hfz]
    norm_num
  have h5 : tier5pick
      [(⟨1, "certificate", Option.some "abce", true⟩, ["abce"])] ["abcd"]
      = Option.some (⟨1, "certificate", Option.some "abce", true⟩,
          "abce", 3/4) := by
    unfold tier5pick
    rw [hbp]
    rfl
  unfold validateProducts
  dsimp only
  rw [if_neg (by decide)]
  rw [show expandRules [⟨1, "certificate", Option.some "abce", true⟩]
    = [(⟨1, "certificate", Option.some "abce", true⟩, ["abce"])] from
    by decide]
  rw [show ((["abcd"].map normalize_text).filter (· ≠ "")) = ["abcd"] from
    by decide]
  unfold matchCascade
  rw [show tier1 [(⟨1, "certificate", Option.some "abce", true⟩, ["abce"])]
    ["abcd"] = Option.none from by decide]
  rw [show tier2 [(⟨1, "certificate", Option.some "abce", true⟩, ["abce"])]
    ["abcd"] = Option.none from by decide]
  rw [show tier3pick
    [(⟨1, "certificate", Option.some "abce", true⟩, ["abce"])]
    ["abcd"] = Option.none from by decide]
  rw [show tier4pick (fun s => s)
    [(⟨1, "certificate", Option.some "abce", true⟩, ["abce"])]
    ["abcd"] = Option.none from by decide]
  rw [h5]

/-! ## Theorems for claim C4 -/

/-- Characterization of the strict-improvement triple fold of tiers 3-5:
whenever it records any pair, its value is the global maximum score over
all rule/candidate/product combinations, that maximum is strictly
positive, and the recorded pair is the earliest one (in rule, then
candidate, then product iteration order) attaining the maximum. -/
theorem best_fold_char (score : String → String → ℚ)
    (e : List (Rule × List String)) (p : List String) (rc : Rule × String)
    (h : (bestPairFold score e p).2 = Option.some rc) :
    (bestPairFold score e p).1 = maxScore score e p ∧
    0 < maxScore score e p ∧
    (bestPairFold score e p).2
      = ((flatTriples e p).find? fun t =>
          decide (score t.1.2 t.2 = maxScore score e p)).map
        (fun t => t.1) := by
  have hflat := bestPairFold_eq_flat score e p
  have hfst : (bestPairFold score e p).1 = maxScore score e p := by
    rw [hflat]
    exact @best_fold_fst ((Rule × String) × String)
      (fun t => score t.1.2 t.2) (fun t => t.1)
      (flatTriples e p) (0, Option.none)
  have hpos : 0 < maxScore score e p := by
    by_contra hle
    push_neg at hle
    have hall : ∀ t ∈ flatTriples e p, score t.1.2 t.2 ≤ (0 : ℚ) := by
      intro t ht
      calc score t.1.2 t.2
          ≤ maxScore score e p :=
            le_foldl_max (List.mem_map_of_mem _ ht) 0
        _ ≤ 0 := hle
    have hun := @best_fold_unchanged ((Rule × String) × String)
      (fun t => score t.1.2 t.2) (fun t => t.1)
      (flatTriples e p) (0, Option.none) hall
    rw [hflat, hun] at h
    simp at h
  refine ⟨hfst, hpos, ?_⟩
  rw [hflat]
  exact @best_fold_snd ((Rule × String) × String)
    (fun t => score t.1.2 t.2) (fun t => t.1)
    (flatTriples e p) (0, Option.none) hpos

/-- Concrete Jaccard score: `"x w y z v"` versus `"x y z"` shares 3 tokens
of a 5-token union. -/
theorem token_score_first :
    token_overlap_score "x w y z v" "x y z" = 3/5 := by
  have hfil : (tokenSet "x w y z v").filter
      (fun tok => tok ∈ tokenSet "x y z") = ["x", "y", "z"] := by decide
  have hun : (tokenSet "x w y z v"
      ++ (tokenSet "x y z").filter
        (fun tok => ¬ tok ∈ tokenSet "x w y z v"))
      = ["x", "w", "y", "z", "v"] := by decide
  unfold token_overlap_score
  dsimp only
  rw [hfil, hun,
    if_neg (by decide :
      ¬ ((tokenSet "x w y z v").isEmpty ∨ (tokenSet "x y z").isEmpty)),
    if_neg (by decide : ¬ (["x", "y", "z"] : List String).length < 1),
    if_neg (by decide : ¬ (["x", "w", "y", "z", "v"] : List String).isEmpty)]
  norm_num

/-- Concrete Jaccard score: `"x z y"` versus `"x y z"` has identical token
sets, scoring a perfect 1. -/
theorem token_score_second :
    token_overlap_score "x z y" "x y z" = 1 := by
  have hfil : (tokenSet "x z y").filter
      (fun tok => tok ∈ tokenSet "x y z") = ["x", "z", "y"] := by decide
  have hun : (tokenSet "x z y"
      ++ (tokenSet "x y z").filter
        (fun tok => ¬ tok ∈ tokenSet "x z y"))
      = ["x", "z", "y"] := by decide
  unfold token_overlap_score
  dsimp only
  rw [hfil, hun,
    if_neg (by decide :
      ¬ ((tokenSet "x z y").isEmpty ∨ (tokenSet "x y z").isEmpty)),
    if_neg (by decide : ¬ (["x", "z", "y"] : List String).length < 1),
    if_neg (by decide : ¬ (["x", "z", "y"] : List String).isEmpty)]
  norm_num

/-- Concrete tier-3 evaluation: with candidates `"x w y z v"` (score 0.6)
and `"x z y"` (score 1) against the product `"x y z"`, the token-overlap
tier records the later, higher-scoring pair. -/
theorem tier3_concrete :
    tier3pick [(⟨1, "certificate", Option.some "x w y z v", true⟩,
        ["x w y z v"]),
      (⟨2, "certificate", Option.some "x z y", true⟩, ["x z y"])]
      ["x y z"]
      = Option.some (⟨2, "certificate", Option.some "x z y", true⟩,
          "x z y", 1) := by
  have hbp : bestPairFold token_overlap_score
      [(⟨1, "certificate", Option.some "x w y z v", true⟩, ["x w y z v"]),
        (⟨2, "certificate", Option.some "x z y", true⟩, ["x z y"])]
      ["x y z"]
      = (1, Option.some (⟨2, "certificate", Option.some "x z y", true⟩,
          "x z y")) := by
    unfold bestPairFold
    simp only [List.foldl_cons, List.foldl_nil]
    unfold bestStep
    dsimp only
    rw [token_score_first, token_score_second]
    norm_num
  unfold tier3pick
  rw [hbp]
  dsimp only
  rw [if_pos (by norm_num : (1 : ℚ) ≥ 3/5)]

/-- C4 counterexample: two active rules whose candidates, in iteration
order, are `"x w y z v"` then `"x z y"`, against the extracted product
`"x y z"`. The first pair already clears the token-overlap threshold
(score 0.6), yet the matcher reports the second pair (score 1): within
tier 3 the selection is the global best score, not the first matching
rule/candidate pair in iteration order. -/
theorem cascade_first_match_counterexample :
    flatPairs (expandRules
      [⟨1, "certificate", Option.some "x w y z v", true⟩,
        ⟨2, "certificate", Option.some "x z y", true⟩])
      = [(⟨1, "certificate", Option.some "x w y z v", true⟩, "x w y z v"),
        (⟨2, "certificate", Option.some "x z y", true⟩, "x z y")] ∧
    3/5 ≤ token_overlap_score "x w y z v" "x y z" ∧
    (validateProducts (fun s => s)
      [⟨1, "certificate", Option.some "x w y z v", true⟩,
        ⟨2, "certificate", Option.some "x z y", true⟩]
      ["x y z"]).match_type = Option.some "token_overlap" ∧
    (validateProducts (fun s => s)
      [⟨1, "certificate", Option.some "x w y z v", true⟩,
        ⟨2, "certificate", Option.some "x z y", true⟩]
      ["x y z"]).matched_rule_product_name = Option.some "x z y" := by
  refine ⟨by decide, by rw [token_score_first], ?_⟩
  have hval : validateProducts (fun s => s)
      [⟨1, "certificate", Option.some "x w y z v", true⟩,
        ⟨2, "certificate", Option.some "x z y", true⟩]
      ["x y z"]
      = matchCascade (fun s => s)
          [(⟨1, "certificate", Option.some "x w y z v", true⟩,
            ["x w y z v"]),
            (⟨2, "certificate", Option.some "x z y", true⟩, ["x z y"])]
          ["x y z"] := by
    unfold validateProducts
    dsimp only
    rw [if_neg (by decide)]
    rw [show expandRules
      [⟨1, "certificate", Option.some "x w y z v", true⟩,
        ⟨2, "certificate", Option.some "x z y", true⟩]
      = [(⟨1, "certificate", Option.some "x w y z v", true⟩,
          ["x w y z v"]),
        (⟨2, "certificate", Option.some "x z y", true⟩, ["x z y"])] from
      by decide]
    rw [show ((["x y z"].map normalize_text).filter (· ≠ ""))
      = ["x y z"] from by decide]
  rw [hval]
  unfold matchCascade
  rw [show tier1
    [(⟨1, "certificate", Option.some "x w y z v", true⟩, ["x w y z v"]),
      (⟨2, "certificate", Option.some "x z y", true⟩, ["x z y"])]
    ["x y z"] = Option.none from by decide]
  rw [show tier2
    [(⟨1, "certificate", Option.some "x w y z v", true⟩, ["x w y z v"]),
      (⟨2, "certificate", Option.some "x z y", true⟩, ["x z y"])]
    ["x y z"] = Option.none from by decide]
  rw [tier3_concrete]
  exact ⟨rfl, rfl⟩

/-- C4 (amended): the first tier to produce a match wins, and tiers 1 and
2 select the first matching rule/candidate pair in rule-then-candidate
iteration order; but each of tiers 3, 4 and 5 — not only the fuzzy tier —
selects the globally best-scoring pair over all rule/candidate/product
combinations (earliest pair attaining the maximum on ties), with tiers 3
and 4 additionally gated at their thresholds 0.6 and 0.5. -/
theorem matchCascade_selection (stem : String → String)
    (e : List (Rule × List String)) (p : List String) :
    tier1 e p = ((flatPairs e).find? fun rc => p.contains rc.2) ∧
    tier2 e p = ((flatPairs e).find? fun rc =>
      p.any fun q => isSubstr rc.2 q || isSubstr q rc.2) ∧
    (∀ r c s, tier3pick e p = Option.some (r, c, s) →
      s = maxScore token_overlap_score e p ∧ 3/5 ≤ s ∧
      Option.some (r, c) = ((flatTriples e p).find? fun t =>
        decide (token_overlap_score t.1.2 t.2
          = maxScore token_overlap_score e p)).map (fun t => t.1)) ∧
    (∀ r c s, tier4pick stem e p = Option.some (r, c, s) →
      s = maxScore (stem_based_overlap_score stem) e p ∧ 1/2 ≤ s ∧
      Option.some (r, c) = ((flatTriples e p).find? fun t =>
        decide (stem_based_overlap_score stem t.1.2 t.2
          = maxScore (stem_based_overlap_score stem) e p)).map
        (fun t => t.1)) ∧
    (∀ r c s, tier5pick e p = Option.some (r, c, s) →
      s = maxScore fuzzy_similarity e p ∧ 0 < s ∧
      Option.some (r, c) = ((flatTriples e p).find? fun t =>
        decide (fuzzy_similarity t.1.2 t.2
          = maxScore fuzzy_similarity e p)).map (fun t => t.1)) := by
  refine ⟨?_, ?_, ?_, ?_, ?_⟩
  · exact findSome_first_eq (fun c => p.contains c) e
  · exact findSome_first_eq
      (fun c => p.any fun q => isSubstr c q || isSubstr q c) e
  · intro r c s h
    unfold tier3pick at h
    dsimp only at h
    cases hb : (bestPairFold token_overlap_score e p).2 with
    | none => rw [hb] at h; simp at h
    | some rc =>
      rw [hb] at h
      dsimp only at h
      by_cases hge : (bestPairFold token_overlap_score e p).1 ≥ 3/5
      · rw [if_pos hge] at h
        have hinj := Option.some.inj h
        rw [Prod.mk.injEq, Prod.mk.injEq] at hinj
        obtain ⟨h1, h2, h3⟩ := hinj
        have hch := best_fold_char token_overlap_score e p rc hb
        refine ⟨?_, ?_, ?_⟩
        · rw [← h3, hch.1]
        · rw [← h3]; exact hge
        · rw [← h1, ← h2, ← hch.2.2, hb]
      · rw [if_neg hge] at h
        simp at h
  · intro r c s h
    unfold tier4pick at h
    dsimp only at h
    cases hb : (bestPairFold (stem_based_overlap_score stem) e p).2 with
    | none => rw [hb] at h; simp at h
    | some rc =>
      rw [hb] at h
      dsimp only at h
      by_cases hge :
          (bestPairFold (stem_based_overlap_score stem) e p).1 ≥ 1/2
      · rw [if_pos hge] at h
        have hinj := Option.some.inj h
        rw [Prod.mk.injEq, Prod.mk.injEq] at hinj
        obtain ⟨h1, h2, h3⟩ := hinj
        have hch := best_fold_char (stem_based_overlap_score stem) e p rc hb
        refine ⟨?_, ?_, ?_⟩
        · rw [← h3, hch.1]
        · rw [← h3]; exact hge
        · rw [← h1, ← h2, ← hch.2.2, hb]
      · rw [if_neg hge] at h
        simp at h
  · intro r c s h
    unfold tier5pick at h
    rw [bestPairFoldPos_eq_bestPairFold fuzzy_similarity
      (fun c p => fuzzy_similarity_nonneg c p)] at h
    dsimp only at h
    obtain ⟨rc, hb, hrc⟩ := Option.map_eq_some'.mp h
    rw [Prod.mk.injEq, Prod.mk.injEq] at hrc
    obtain ⟨h1, h2, h3⟩ := hrc
    have hch := best_fold_char fuzzy_similarity e p rc hb
    refine ⟨?_, ?_, ?_⟩
    · rw [← h3, hch.1]
    · rw [← h3, hch.1]; exact hch.2.1
    · rw [← h1, ← h2, ← hch.2.2, hb]

/-- Witness for `matchCascade_selection` at the counterexample input: the
tier-3 clause applied to the concrete pick `("x z y", score 1)` shows the
recorded score is the global maximum and the pair is its earliest
attainer. -/
theorem matchCascade_selection_witness :
    (1 : ℚ) = maxScore token_overlap_score
      [(⟨1, "certificate", Option.some "x w y z v", true⟩, ["x w y z v"]),
        (⟨2, "certificate", Option.some "x z y", true⟩, ["x z y"])]
      ["x y z"] ∧
    3/5 ≤ (1 : ℚ) ∧
    Option.some (⟨2, "certificate", Option.some "x z y", true⟩, "x z y")
      = ((flatTriples
          [(⟨1, "certificate", Option.some "x w y z v", true⟩,
            ["x w y z v"]),
            (⟨2, "certificate", Option.some "x z y", true⟩, ["x z y"])]
          ["x y z"]).find? fun t =>
        decide (token_overlap_score t.1.2 t.2
          = maxScore token_overlap_score
            [(⟨1, "certificate", Option.some "x w y z v", true⟩,
              ["x w y z v"]),
              (⟨2, "certificate", Option.some "x z y", true⟩, ["x z y"])]
            ["x y z"])).map (fun t => t.1) :=
  (matchCascade_selection (fun s => s)
    [(⟨1, "certificate", Option.some "x w y z v", true⟩, ["x w y z v"]),
      (⟨2, "certificate", Option.some "x z y", true⟩, ["x z y"])]
    ["x y z"]).2.2.1
    ⟨2, "certificate", Option.some "x z y", true⟩ "x z y" 1 tier3_concrete

/-! ## Dictionary lemmas -/

@[simp]
theorem dictKeys_nil {α : Type} : dictKeys ([] : List (String × α)) = [] := rfl

@[simp]
theorem dictKeys_cons {α : Type} (kv : String × α) (t : List (String × α)) :
    dictKeys (kv :: t) = kv.1 :: dictKeys t := rfl

theorem alookup_isSome_iff {α : Type} (k : String) (d : List (String × α)) :
    (alookup k d).isSome ↔ k ∈ dictKeys d := by
  induction d with
  | nil => simp [alookup]
  | cons kv t ih =>
    by_cases h : kv.1 = k <;> simp [alookup, h, ih]
    exact fun hk => (h hk.symm).elim

theorem alookup_eq_none_iff {α : Type} (k : String) (d : List (String × α)) :
    alookup k d = Option.none ↔ ¬ k ∈ dictKeys d := by
  rw [← alookup_isSome_iff, Option.isSome_iff_exists]
  cases alookup k d <;> simp

theorem alookup_mem {α : Type} {k : String} {v : α} {d : List (String × α)}
    (h : alookup k d = Option.some v) : (k, v) ∈ d := by
  induction d with
  | nil => simp [alookup] at h
  | cons kv t ih =>
    by_cases hk : kv.1 = k
    · simp [alookup, hk] at h
      subst hk h
      simp
    · simp [alookup, hk] at h
      simp [ih h]

theorem mem_alookup_isSome {α : Type} {k : String} {v : α}
    {d : List (String × α)} (h : (k, v) ∈ d) :
    (alookup k d).isSome := by
  rw [alookup_isSome_iff]
  exact List.mem_map_of_mem Prod.fst h

theorem mem_keys_dinsert {α : Type} (j k : String) (v : α)
    (d : List (String × α)) :
    j ∈ dictKeys (dinsert k v d) ↔ j = k ∨ j ∈ dictKeys d := by
  induction d with
  | nil => simp [dinsert]
  | cons kv t ih =>
    obtain ⟨k1, v1⟩ := kv
    by_cases h : k1 = k
    · subst h
      simp [dinsert]
    · simp only [dinsert, h, if_false, dictKeys_cons, List.mem_cons, ih]
      tauto

theorem nodup_keys_dinsert {α : Type} (k : String) (v : α)
    {d : List (String × α)} (h : (dictKeys d).Nodup) :
    (dictKeys (dinsert k v d)).Nodup := by
  induction d with
  | nil => simp [dinsert]
  | cons kv t ih =>
    obtain ⟨k1, v1⟩ := kv
    by_cases hk : k1 = k
    · subst hk
      simpa [dinsert] using h
    · simp only [dictKeys_cons, List.nodup_cons] at h
      simp only [dinsert, hk, if_false, dictKeys_cons, List.nodup_cons]
      refine ⟨?_, ih h.2⟩
      rw [mem_keys_dinsert]
      rintro (h1 | h1)
      · exact hk h1
      · exact h.1 h1

theorem normalizeFields_nodup (raw_fields : List (String × PyVal)) :
    (dictKeys (normalizeFields raw_fields)).Nodup := by
  have main : ∀ (l : List (String × PyVal)) (acc : List (String × PyVal)),
      (dictKeys acc).Nodup →
      (dictKeys (l.foldl
        (fun acc kv => dinsert (normalizeFieldKey kv.1) kv.2 acc) acc)).Nodup := by
    intro l
    induction l with
    | nil => intro acc h; simpa using h
    | cons kv t ih =>
      intro acc h
      exact ih _ (nodup_keys_dinsert _ _ h)
  exact main raw_fields [] (by simp)

theorem mem_of_mem_normalizeFields {kv : String × PyVal}
    {raw_fields : List (String × PyVal)}
    (h : kv ∈ normalizeFields raw_fields) :
    ∃ k₀, (k₀, kv.2) ∈ raw_fields := by
  have mem_dinsert : ∀ (j : String × PyVal) (k : String) (v : PyVal)
      (d : List (String × PyVal)), j ∈ dinsert k v d → j = (k, v) ∨ j ∈ d := by
    intro j k v d
    induction d with
    | nil => simp [dinsert]
    | cons kv' t ih =>
      obtain ⟨k1, v1⟩ := kv'
      by_cases hk : k1 = k
      · simp only [dinsert, hk, if_true]
        intro h
        rcases List.mem_cons.mp h with h1 | h1
        · exact Or.inl h1
        · exact Or.inr (List.mem_cons_of_mem _ h1)
      · simp only [dinsert, hk, if_false]
        intro h
        rcases List.mem_cons.mp h with h1 | h1
        · exact Or.inr (by rw [h1]; simp)
        · rcases ih h1 with h2 | h2
          · exact Or.inl h2
          · exact Or.inr (List.mem_cons_of_mem _ h2)
  have main : ∀ (l acc : List (String × PyVal)),
      kv ∈ l.foldl (fun acc kv => dinsert (normalizeFieldKey kv.1) kv.2 acc) acc →
      (∃ k₀, (k₀, kv.2) ∈ l) ∨ kv ∈ acc := by
    intro l
    induction l with
    | nil => intro acc h; exact Or.inr h
    | cons hd t ih =>
      intro acc h
      rcases ih _ h with h1 | h1
      · obtain ⟨k₀, hk₀⟩ := h1
        exact Or.inl ⟨k₀, List.mem_cons_of_mem _ hk₀⟩
      · rcases mem_dinsert _ _ _ _ h1 with h2 | h2
        · refine Or.inl ⟨hd.1, ?_⟩
          have : kv.2 = hd.2 := by rw [h2]
          rw [this]
          simp
        · exact Or.inr h2
  rcases main raw_fields [] h with h1 | h1
  · exact h1
  · simp at h1

theorem mem_insertKey (j k : String) (s : List String) :
    j ∈ insertKey k s ↔ j = k ∨ j ∈ s := by
  unfold insertKey
  by_cases h : k ∈ s
  · simp only [if_pos h]
    constructor
    · exact fun h1 => Or.inr h1
    · rintro (h1 | h1)
      · subst h1; exact h
      · exact h1
  · simp only [if_neg h, List.mem_append, List.mem_singleton]
    tauto

/-! ## Characterization of the two loops of `direct_map` -/

theorem mapLoop_mapped_spec (nf : List (String × PyVal)) (k : String) :
    ∀ (fm : List (String × String))
      (acc : PyVal × List (String × PyVal) × List String),
      k ∈ (fm.foldl (mapStep nf) acc).2.2 ↔
        k ∈ acc.2.2 ∨ ∃ p, (k, p) ∈ fm ∧ (alookup k nf).isSome := by
  intro fm
  induction fm with
  | nil => intro acc; simp
  | cons hd t ih =>
    intro acc
    rw [List.foldl_cons, ih]
    have hstep : (mapStep nf acc hd).2.2 =
        match alookup hd.1 nf with
        | Option.some _ => insertKey hd.1 acc.2.2
        | Option.none => acc.2.2 := by
      unfold mapStep
      cases alookup hd.1 nf <;> simp [apply_ite]
    cases halk : alookup hd.1 nf with
    | none =>
      rw [hstep, halk]
      simp only [List.mem_cons]
      constructor
      · rintro (h1 | ⟨p, h2, h3⟩)
        · exact Or.inl h1
        · exact Or.inr ⟨p, Or.inr h2, h3⟩
      · rintro (h1 | ⟨p, h2 | h2, h3⟩)
        · exact Or.inl h1
        · exfalso
          have : k = hd.1 := by
            have := congrArg Prod.fst h2
            simpa using this
          rw [this, halk] at h3
          simp at h3
        · exact Or.inr ⟨p, h2, h3⟩
    | some v =>
      rw [hstep, halk]
      rw [mem_insertKey]
      constructor
      · rintro ((h1 | h1) | ⟨p, h2, h3⟩)
        · subst h1
          exact Or.inr ⟨hd.2, by simp, by simp [halk]⟩
        · exact Or.inl h1
        · exact Or.inr ⟨p, List.mem_cons_of_mem _ h2, h3⟩
      · rintro (h1 | ⟨p, h2, h3⟩)
        · exact Or.inl (Or.inr h1)
        · rcases List.mem_cons.mp h2 with h4 | h4
          · left; left
            have := congrArg Prod.fst h4
            simpa using this
          · exact Or.inr ⟨p, h4, h3⟩

theorem mapLoop_unmapped_spec (nf : List (String × PyVal)) (k : String) :
    ∀ (fm : List (String × String))
      (acc : PyVal × List (String × PyVal) × List String),
      k ∈ dictKeys (fm.foldl (mapStep nf) acc).2.1 ↔
        k ∈ dictKeys acc.2.1 ∨
          ∃ p, (k, p) ∈ fm ∧ (alookup k nf).isSome ∧
            is_coverage_path p = false := by
  intro fm
  induction fm with
  | nil => intro acc; simp
  | cons hd t ih =>
    intro acc
    rw [List.foldl_cons, ih]
    cases halk : alookup hd.1 nf with
    | none =>
      have hstep : (mapStep nf acc hd).2.1 = acc.2.1 := by
        unfold mapStep
        rw [halk]
      rw [hstep]
      constructor
      · rintro (h1 | ⟨p, h2, h3⟩)
        · exact Or.inl h1
        · exact Or.inr ⟨p, List.mem_cons_of_mem _ h2, h3⟩
      · rintro (h1 | ⟨p, h2, h3⟩)
        · exact Or.inl h1
        · rcases List.mem_cons.mp h2 with h4 | h4
          · exfalso
            have : k = hd.1 := by
              have := congrArg Prod.fst h4
              simpa using this
            rw [this, halk] at h3
            simp at h3
          · exact Or.inr ⟨p, h4, h3⟩
    | some v =>
      by_cases hcov : is_coverage_path hd.2
      · have hstep : (mapStep nf acc hd).2.1 = acc.2.1 := by
          unfold mapStep
          rw [halk]
          simp [hcov]
        rw [hstep]
        constructor
        · rintro (h1 | ⟨p, h2, h3⟩)
          · exact Or.inl h1
          · exact Or.inr ⟨p, List.mem_cons_of_mem _ h2, h3⟩
        · rintro (h1 | ⟨p, h2, h3, h5⟩)
          · exact Or.inl h1
          · rcases List.mem_cons.mp h2 with h4 | h4
            · exfalso
              have : p = hd.2 := by
                have := congrArg Prod.snd h4
                simpa using this
              rw [this, hcov] at h5
              simp at h5
            · exact Or.inr ⟨p, h4, h3, h5⟩
      · have hstep : (mapStep nf acc hd).2.1 = dinsert hd.1 v acc.2.1 := by
          unfold mapStep
          rw [halk]
          simp [hcov]
        rw [hstep, mem_keys_dinsert]
        constructor
        · rintro ((h1 | h1) | ⟨p, h2, h3⟩)
          · subst h1
            exact Or.inr ⟨hd.2, by simp, by simp [halk],
              by simp [hcov]⟩
          · exact Or.inl h1
          · exact Or.inr ⟨p, List.mem_cons_of_mem _ h2, h3⟩
        · rintro (h1 | ⟨p, h2, h3⟩)
          · exact Or.inl (Or.inr h1)
          · rcases List.mem_cons.mp h2 with h4 | h4
            · left; left
              have := congrArg Prod.fst h4
              simpa using this
            · exact Or.inr ⟨p, h4, h3⟩

theorem unmappedLoop_spec (mapped : List String) (k : String) :
    ∀ (nf : List (String × PyVal)) (unm : List (String × PyVal)),
      k ∈ dictKeys (nf.foldl (unmappedStep mapped) unm) ↔
        k ∈ dictKeys unm ∨
          ∃ v, (k, v) ∈ nf ∧ ¬ k ∈ mapped ∧ v.isNone = false := by
  intro nf
  induction nf with
  | nil => intro unm; simp
  | cons hd t ih =>
    intro unm
    rw [List.foldl_cons, ih]
    by_cases hc : ¬ hd.1 ∈ mapped ∧ ¬ hd.2.isNone
    · have hstep : unmappedStep mapped unm hd = dinsert hd.1 hd.2 unm := by
        unfold unmappedStep
        simp [hc.1, hc.2]
      rw [hstep, mem_keys_dinsert]
      constructor
      · rintro ((h1 | h1) | ⟨v, h2, h3⟩)
        · subst h1
          exact Or.inr ⟨hd.2, by simp, hc.1, by simpa using hc.2⟩
        · exact Or.inl h1
        · exact Or.inr ⟨v, List.mem_cons_of_mem _ h2, h3⟩
      · rintro (h1 | ⟨v, h2, h3⟩)
        · exact Or.inl (Or.inr h1)
        · rcases List.mem_cons.mp h2 with h4 | h4
          · left; left
            have := congrArg Prod.fst h4
            simpa using this
          · exact Or.inr ⟨v, h4, h3⟩
    · have hstep : unmappedStep mapped unm hd = unm := by
        unfold unmappedStep
        simp only [ite_eq_right_iff]
        intro h
        exact (hc h).elim
      rw [hstep]
      constructor
      · rintro (h1 | ⟨v, h2, h3⟩)
        · exact Or.inl h1
        · exact Or.inr ⟨v, List.mem_cons_of_mem _ h2, h3⟩
      · rintro (h1 | ⟨v, h2, h3, h5⟩)
        · exact Or.inl h1
        · rcases List.mem_cons.mp h2 with h4 | h4
          · exfalso
            apply hc
            have hk : k = hd.1 := by
              have := congrArg Prod.fst h4
              simpa using this
            have hv : v = hd.2 := by
              have := congrArg Prod.snd h4
              simpa using this
            constructor
            · rw [← hk]; exact h3
            · rw [← hv]; simp [h5]
          · exact Or.inr ⟨v, h4, h3, h5⟩

theorem alookup_of_mem_nodup {α : Type} {d : List (String × α)}
    (h : (dictKeys d).Nodup) {k : String} {v : α} (hm : (k, v) ∈ d) :
    alookup k d = Option.some v := by
  induction d with
  | nil => simp at hm
  | cons kv t ih =>
    obtain ⟨k1, v1⟩ := kv
    simp only [dictKeys_cons, List.nodup_cons] at h
    rcases List.mem_cons.mp hm with h1 | h1
    · have hk : k = k1 := congrArg Prod.fst h1
      have hv : v = v1 := congrArg Prod.snd h1
      simp [alookup, hk, hv]
    · by_cases hk : k1 = k
      · exfalso
        apply h.1
        subst hk
        exact List.mem_map_of_mem Prod.fst h1
      · simp only [alookup, hk, if_false]
        exact ih h.2 h1

theorem pyVal_isNone_iff (v : PyVal) : v.isNone = true ↔ v = PyVal.none := by
  cases v <;> simp [PyVal.isNone]

/-! ## Theorems for claim C2 -/

/-- C2 counterexample: a raw field with value `None` and no mapping-table
entry (`{"Unknown_Custom_Field_X": None}` against a one-entry table) is
silently dropped: its normalized key is present in the normalized field map
but appears neither among the keys consumed into the coverage structure nor
in the returned unmapped field set. -/
theorem direct_map_null_field_dropped :
    dictKeys (normalizeFields [("Unknown_Custom_Field_X", PyVal.none)])
      = ["Unknown_Custom_Field_X"] ∧
    consumedKeys [("Form_CompletionDate_A", "issue_date")]
      [("Unknown_Custom_Field_X", PyVal.none)] = [] ∧
    dictKeys (direct_map [("Form_CompletionDate_A", "issue_date")]
      [("Unknown_Custom_Field_X", PyVal.none)]).2 = [] :=
  ⟨rfl, rfl, rfl⟩

/-- C2 (amended): for a duplicate-free mapping table, every distinct
normalized raw field key lands in exactly one of {consumed into the coverage
structure, the returned unmapped field set} — except that a key with no
table entry whose value is `None` is dropped from both (the second loop of
`direct_map` filters on `value is not None`). -/
theorem direct_map_completeness (fm : List (String × String))
    (raw : List (String × PyVal)) (k : String)
    (hnd : (dictKeys fm).Nodup)
    (hk : k ∈ dictKeys (normalizeFields raw)) :
    (k ∈ consumedKeys fm raw ∧ ¬ k ∈ dictKeys (direct_map fm raw).2) ∨
    (¬ k ∈ consumedKeys fm raw ∧ k ∈ dictKeys (direct_map fm raw).2) ∨
    (¬ k ∈ consumedKeys fm raw ∧ ¬ k ∈ dictKeys (direct_map fm raw).2 ∧
      alookup k fm = Option.none ∧
      alookup k (normalizeFields raw) = Option.some PyVal.none) := by
  have hne : raw.isEmpty = false := by
    cases hraw : raw with
    | nil => rw [hraw] at hk; simp [normalizeFields] at hk
    | cons r0 rt => rfl
  set nf := normalizeFields raw with hnf
  have hdm2 : (direct_map fm raw).2 =
      unmappedLoop nf (mapLoop fm nf).2.2 (mapLoop fm nf).2.1 := by
    unfold direct_map
    rw [hne]
    simp
  have hmem : k ∈ dictKeys (direct_map fm raw).2 ↔
      k ∈ dictKeys (mapLoop fm nf).2.1 ∨
      (∃ v, (k, v) ∈ nf ∧ ¬ k ∈ (mapLoop fm nf).2.2 ∧
        v.isNone = false) := by
    rw [hdm2]
    unfold unmappedLoop
    rw [unmappedLoop_spec]
  have hmapped : k ∈ (mapLoop fm nf).2.2 ↔
      ∃ p, (k, p) ∈ fm ∧ (alookup k nf).isSome := by
    unfold mapLoop
    rw [mapLoop_mapped_spec]
    simp
  have hunm1 : k ∈ dictKeys (mapLoop fm nf).2.1 ↔
      ∃ p, (k, p) ∈ fm ∧ (alookup k nf).isSome ∧
        is_coverage_path p = false := by
    unfold mapLoop
    rw [mapLoop_unmapped_spec]
    simp
  have hkSome : (alookup k nf).isSome := (alookup_isSome_iff k nf).mpr hk
  have hcons : k ∈ consumedKeys fm raw ↔
      (match alookup k fm with
       | Option.some p => is_coverage_path p
       | Option.none => false) = true := by
    unfold consumedKeys
    rw [List.mem_filter, ← hnf]
    constructor
    · exact fun h => h.2
    · exact fun h => ⟨hk, h⟩
  have hnfnd : (dictKeys nf).Nodup := by
    rw [hnf]
    exact normalizeFields_nodup raw
  cases halk : alookup k fm with
  | some p =>
    have hpmem : (k, p) ∈ fm := alookup_mem halk
    cases hcov : is_coverage_path p with
    | true =>
      left
      constructor
      · rw [hcons, halk]
        exact hcov
      · rw [hmem]
        rintro (h1 | ⟨v, _, hnmap, _⟩)
        · rw [hunm1] at h1
          obtain ⟨p', hp'mem, _, hp'cov⟩ := h1
          have hpp : p' = p := by
            have h2 := alookup_of_mem_nodup hnd hp'mem
            rw [halk] at h2
            exact (Option.some.inj h2).symm
          rw [hpp, hcov] at hp'cov
          simp at hp'cov
        · exact hnmap (hmapped.mpr ⟨p, hpmem, hkSome⟩)
    | false =>
      right; left
      constructor
      · rw [hcons, halk]
        simp [hcov]
      · rw [hmem]
        exact Or.inl (hunm1.mpr ⟨p, hpmem, hkSome, hcov⟩)
  | none =>
    have hnotmapped : ¬ k ∈ (mapLoop fm nf).2.2 := by
      rw [hmapped]
      rintro ⟨p, hpmem, _⟩
      have h2 := mem_alookup_isSome hpmem
      rw [halk] at h2
      simp at h2
    have hnotunm1 : ¬ k ∈ dictKeys (mapLoop fm nf).2.1 := by
      rw [hunm1]
      rintro ⟨p, hpmem, _, _⟩
      have h2 := mem_alookup_isSome hpmem
      rw [halk] at h2
      simp at h2
    have hnotcons : ¬ k ∈ consumedKeys fm raw := by
      rw [hcons, halk]
      simp
    obtain ⟨v0, hv0⟩ := Option.isSome_iff_exists.mp hkSome
    cases hv0none : v0.isNone with
    | false =>
      right; left
      refine ⟨hnotcons, ?_⟩
      rw [hmem]
      exact Or.inr ⟨v0, alookup_mem hv0, hnotmapped, hv0none⟩
    | true =>
      right; right
      refine ⟨hnotcons, ?_, rfl, ?_⟩
      · rw [hmem]
        rintro (h1 | ⟨v, hvmem, _, hvnone⟩)
        · exact hnotunm1 h1
        · have hvv : v = v0 := by
            have h2 := alookup_of_mem_nodup hnfnd hvmem
            rw [hv0] at h2
            exact (Option.some.inj h2).symm
          rw [hvv, hv0none] at hvnone
          simp at hvnone
      · rw [hv0, (pyVal_isNone_iff v0).mp hv0none]

/-- Witness for `direct_map_completeness` at a concrete one-entry table and a
one-field raw input whose normalized name the table consumes. -/
theorem direct_map_completeness_witness :
    (("Form_CompletionDate_A" ∈ consumedKeys
        [("Form_CompletionDate_A", "issue_date")]
        [("Form_CompletionDate_A[0]", PyVal.str "2024-01-01")] ∧
      ¬ "Form_CompletionDate_A" ∈ dictKeys
        (direct_map [("Form_CompletionDate_A", "issue_date")]
          [("Form_CompletionDate_A[0]", PyVal.str "2024-01-01")]).2) ∨
    (¬ "Form_CompletionDate_A" ∈ consumedKeys
        [("Form_CompletionDate_A", "issue_date")]
        [("Form_CompletionDate_A[0]", PyVal.str "2024-01-01")] ∧
      "Form_CompletionDate_A" ∈ dictKeys
        (direct_map [("Form_CompletionDate_A", "issue_date")]
          [("Form_CompletionDate_A[0]", PyVal.str "2024-01-01")]).2) ∨
    (¬ "Form_CompletionDate_A" ∈ consumedKeys
        [("Form_CompletionDate_A", "issue_date")]
        [("Form_CompletionDate_A[0]", PyVal.str "2024-01-01")] ∧
      ¬ "Form_CompletionDate_A" ∈ dictKeys
        (direct_map [("Form_CompletionDate_A", "issue_date")]
          [("Form_CompletionDate_A[0]", PyVal.str "2024-01-01")]).2 ∧
      alookup "Form_CompletionDate_A"
        [("Form_CompletionDate_A", "issue_date")] = Option.none ∧
      alookup "Form_CompletionDate_A"
        (normalizeFields
          [("Form_CompletionDate_A[0]", PyVal.str "2024-01-01")])
        = Option.some PyVal.none)) :=
  direct_map_completeness [("Form_CompletionDate_A", "issue_date")]
    [("Form_CompletionDate_A[0]", PyVal.str "2024-01-01")]
    "Form_CompletionDate_A" (by simp) (by decide)

/-! ## Shape lemmas (claim C3) -/

theorem shapeKVs_cons (k : String) (v : PyVal) (t : List (String × PyVal)) :
    shapeKVs ((k, v) :: t) = (k, shape v) :: shapeKVs t := by
  cases v <;> simp [shapeKVs, shape]

theorem shapeKVs_dinsert_congr {k : String} {v w : PyVal}
    {kvs : List (String × PyVal)} (hl : alookup k kvs = Option.some w)
    (hs : shape v = shape w) :
    shapeKVs (dinsert k v kvs) = shapeKVs kvs := by
  induction kvs with
  | nil => simp [alookup] at hl
  | cons kv t ih =>
    obtain ⟨k1, v1⟩ := kv
    by_cases hk : k1 = k
    · subst hk
      simp only [alookup, if_pos rfl] at hl
      have hw : v1 = w := Option.some.inj hl
      subst hw
      simp [dinsert, shapeKVs_cons, hs]
    · simp only [alookup, hk, if_false] at hl
      simp [dinsert, hk, shapeKVs_cons, ih hl]

theorem alookup_shape_congr :
    ∀ {kvs kvs' : List (String × PyVal)},
      shapeKVs kvs = shapeKVs kvs' → ∀ k : String,
      (alookup k kvs).map shape = (alookup k kvs').map shape
  | [], [], _, _ => rfl
  | [], (k', v') :: t', h, _ => by
    rw [shapeKVs_cons] at h
    simp [shapeKVs] at h
  | (k1, v1) :: t, [], h, _ => by
    rw [shapeKVs_cons] at h
    simp [shapeKVs] at h
  | (k1, v1) :: t, (k1', v1') :: t', h, k => by
    rw [shapeKVs_cons, shapeKVs_cons] at h
    have hk : k1 = k1' := (Prod.mk.injEq .. ▸ (List.cons.inj h).1).1
    have hv : shape v1 = shape v1' := (Prod.mk.injEq .. ▸ (List.cons.inj h).1).2
    have ht : shapeKVs t = shapeKVs t' := (List.cons.inj h).2
    by_cases hkk : k1 = k
    · subst hkk
      simp [alookup, ← hk, hv]
    · rw [← hk]
      simp only [alookup, hkk, if_false]
      exact alookup_shape_congr ht k

theorem isDict_congr_of_shape {v v' : PyVal} (h : shape v = shape v') :
    v.isDict = v'.isDict := by
  cases v <;> cases v' <;> simp_all [shape, PyVal.isDict]

theorem isLeafPathOf_congr :
    ∀ (p : List String) {d d' : PyVal}, shape d = shape d' →
      isLeafPathOf d p = isLeafPathOf d' p
  | [], d, d', _ => rfl
  | [k], d, d', h => by
    cases d <;> cases d' <;> simp_all [shape, isLeafPathOf]
    case dict kvs kvs' =>
      have := alookup_shape_congr h k
      cases h1 : alookup k kvs <;> cases h2 : alookup k kvs' <;>
        rw [h1, h2] at this <;> simp_all
      exact isDict_congr_of_shape this
  | k :: k2 :: rest, d, d', h => by
    cases d <;> cases d' <;> simp_all [shape, isLeafPathOf]
    case dict kvs kvs' =>
      have := alookup_shape_congr h k
      cases h1 : alookup k kvs <;> cases h2 : alookup k kvs' <;>
        rw [h1, h2] at this <;> simp_all
      exact isLeafPathOf_congr (k2 :: rest) this

theorem isLeafPathOf_dict_of_true :
    ∀ (a : String) (b : List String) (c : PyVal),
      isLeafPathOf c (a :: b) = true → ∃ ckvs, c = PyVal.dict ckvs := by
  intro a b c h
  cases b with
  | nil =>
    cases c with
    | dict ckvs => exact ⟨ckvs, rfl⟩
    | none => simp [isLeafPathOf] at h
    | bool b => simp [isLeafPathOf] at h
    | str s => simp [isLeafPathOf] at h
    | int n => simp [isLeafPathOf] at h
    | list xs => simp [isLeafPathOf] at h
  | cons b0 bt =>
    cases c with
    | dict ckvs => exact ⟨ckvs, rfl⟩
    | none => simp [isLeafPathOf] at h
    | bool b => simp [isLeafPathOf] at h
    | str s => simp [isLeafPathOf] at h
    | int n => simp [isLeafPathOf] at h
    | list xs => simp [isLeafPathOf] at h

theorem shape_setNestedGo :
    ∀ (p : List String) (d v : PyVal), isLeafPathOf d p = true →
      v.isDict = false → shape (setNestedGo d p v) = shape d
  | [], d, v => by
    intro h _
    simp [isLeafPathOf] at h
  | [k], d, v => by
    intro h hv
    cases d with
    | none => simp [isLeafPathOf] at h
    | bool b => simp [isLeafPathOf] at h
    | str s => simp [isLeafPathOf] at h
    | int n => simp [isLeafPathOf] at h
    | list xs => simp [isLeafPathOf] at h
    | dict kvs =>
      simp only [isLeafPathOf] at h
      cases hl : alookup k kvs with
      | none => rw [hl] at h; simp at h
      | some w =>
        rw [hl] at h
        have hw : w.isDict = false := by simpa using h
        have hshape : ∀ u : PyVal, u.isDict = false → shape u = shape w := by
          intro u hu
          cases u <;> cases w <;> simp_all [shape, PyVal.isDict]
        simp only [setNestedGo]
        by_cases haddr : k = "address" ∧
            pyTruthy ((alookup k kvs).getD .none) = true
        · rw [if_pos haddr]
          by_cases hval2 : pyTruthy v = true ∧ pyStrip (pyStr v) ≠ ""
          · rw [if_pos hval2]
            simp only [shape]
            rw [shapeKVs_dinsert_congr hl
              (hshape (PyVal.str
                (pyStr ((alookup k kvs).getD PyVal.none) ++ ", " ++ pyStr v))
                rfl)]
          · rw [if_neg hval2]
        · rw [if_neg haddr]
          simp only [shape]
          rw [shapeKVs_dinsert_congr hl (hshape v hv)]
  | k :: k2 :: rest, d, v => by
    intro h hv
    cases d with
    | none => simp [isLeafPathOf] at h
    | bool b => simp [isLeafPathOf] at h
    | str s => simp [isLeafPathOf] at h
    | int n => simp [isLeafPathOf] at h
    | list xs => simp [isLeafPathOf] at h
    | dict kvs =>
      simp only [isLeafPathOf] at h
      cases hl : alookup k kvs with
      | none => rw [hl] at h; simp at h
      | some c =>
        rw [hl] at h
        have hrec : isLeafPathOf c (k2 :: rest) = true := by simpa using h
        obtain ⟨ckvs, hceq⟩ := isLeafPathOf_dict_of_true k2 rest c hrec
        subst hceq
        simp only [setNestedGo, hl]
        simp only [shape]
        rw [shapeKVs_dinsert_congr hl
          (shape_setNestedGo (k2 :: rest) (PyVal.dict ckvs) v hrec hv)]

theorem shape_normalize_value (v : PyVal) :
    shape (normalize_value v) = shape v := by
  cases v with
  | str s =>
    simp only [normalize_value]
    split
    · rfl
    · split <;> rfl
  | none => rfl
  | bool b => rfl
  | int n => rfl
  | list xs => rfl
  | dict kvs => rfl

theorem shapeKVs_normalizeKVs :
    ∀ (kvs : List (String × PyVal)),
      shapeKVs (normalizeKVs kvs) = shapeKVs kvs
  | [] => by simp [normalizeKVs]
  | (k, v) :: t => by
    cases v with
    | dict ckvs =>
      simp only [normalizeKVs, shapeKVs_cons, shape,
        shapeKVs_normalizeKVs ckvs, shapeKVs_normalizeKVs t]
    | none =>
      by_cases hk : k ∈ checkbox_fields <;>
        simp [normalizeKVs, hk, shapeKVs_cons, shape_normalize_value,
          shapeKVs_normalizeKVs t]
    | bool b =>
      by_cases hk : k ∈ checkbox_fields <;>
        simp [normalizeKVs, hk, shapeKVs_cons, shape_normalize_value,
          shapeKVs_normalizeKVs t]
    | str s =>
      by_cases hk : k ∈ checkbox_fields <;>
        simp [normalizeKVs, hk, shapeKVs_cons, shape_normalize_value,
          shapeKVs_normalizeKVs t]
    | int n =>
      by_cases hk : k ∈ checkbox_fields <;>
        simp [normalizeKVs, hk, shapeKVs_cons, shape_normalize_value,
          shapeKVs_normalizeKVs t]
    | list xs =>
      by_cases hk : k ∈ checkbox_fields <;>
        simp [normalizeKVs, hk, shapeKVs_cons, shape_normalize_value,
          shapeKVs_normalizeKVs t]

theorem shape_normalize_checkboxes (d : PyVal) :
    shape (normalize_checkboxes d) = shape d := by
  cases d <;> simp [normalize_checkboxes, shape, shapeKVs_normalizeKVs]

theorem stripped_isDict {v : PyVal} (h : v.isDict = false) :
    (match v with
     | PyVal.str s => PyVal.str (pyStrip s)
     | v => v).isDict = false := by
  cases v <;> simpa [PyVal.isDict] using h

theorem mapLoop_shape (fm : List (String × String))
    (nf : List (String × PyVal))
    (hpaths : ∀ fp ∈ fm, is_coverage_path fp.2 = true →
      isLeafPathOf init_coverage_structure (splitPath fp.2) = true)
    (hvals : ∀ kv ∈ nf, kv.2.isDict = false) :
    shape (mapLoop fm nf).1 = shape init_coverage_structure := by
  have main : ∀ (l : List (String × String))
      (acc : PyVal × List (String × PyVal) × List String),
      (∀ fp ∈ l, is_coverage_path fp.2 = true →
        isLeafPathOf init_coverage_structure (splitPath fp.2) = true) →
      shape acc.1 = shape init_coverage_structure →
      shape (l.foldl (mapStep nf) acc).1 = shape init_coverage_structure := by
    intro l
    induction l with
    | nil => intro acc _ hacc; simpa using hacc
    | cons hd t ih =>
      intro acc hp hacc
      rw [List.foldl_cons]
      refine ih _ (fun fp hfp => hp fp (List.mem_cons_of_mem _ hfp)) ?_
      unfold mapStep
      cases hl : alookup hd.1 nf with
      | none => exact hacc
      | some v =>
        by_cases hcov : is_coverage_path hd.2
        · simp only [hcov, if_true]
          have hvd : v.isDict = false := hvals (hd.1, v) (alookup_mem hl)
          have hpath : isLeafPathOf acc.1 (splitPath hd.2) = true := by
            rw [isLeafPathOf_congr (splitPath hd.2) hacc]
            exact hp hd (List.mem_cons_self hd t) hcov
          unfold set_nested
          rw [shape_setNestedGo (splitPath hd.2) acc.1 _ hpath
            (stripped_isDict hvd)]
          exact hacc
        · simp only [hcov, if_false]
          exact hacc
  exact main fm (init_coverage_structure, [], []) hpaths rfl

/-! ## Theorems for claim C3 -/

/-- C3 counterexample: on the empty field map `direct_map` returns an empty
dict `{}` rather than the fully initialized schema — the early return at
lines 81-82 gives the empty input a key set different from the initialized
schema's. -/
theorem direct_map_empty_shape_counterexample :
    direct_map [("Form_CompletionDate_A", "issue_date")] []
      = (PyVal.dict [], []) ∧
    topKeys (direct_map [("Form_CompletionDate_A", "issue_date")] []).1
      = [] ∧
    topKeys init_coverage_structure ≠ [] :=
  ⟨rfl, rfl, by decide⟩

/-- C3 (amended): for every NON-empty raw field map whose values are
non-dict (string/boolean/null/…) leaves, and any mapping table whose
coverage-classified schema paths address leaf positions of the initialized
schema, the coverage structure returned by `direct_map` has exactly the same
key set at every nesting level (the same `shape`) as the schema initialized
with no data; the empty field map instead yields the empty dict `{}`. -/
theorem direct_map_shape_invariant (fm : List (String × String))
    (raw : List (String × PyVal)) (hraw : raw ≠ [])
    (hpaths : ∀ fp ∈ fm, is_coverage_path fp.2 = true →
      isLeafPathOf init_coverage_structure (splitPath fp.2) = true)
    (hvals : ∀ kv ∈ raw, kv.2.isDict = false) :
    shape (direct_map fm raw).1 = shape init_coverage_structure := by
  have hne : raw.isEmpty = false := by
    cases raw with
    | nil => exact (hraw rfl).elim
    | cons r0 rt => rfl
  have hnfvals : ∀ kv ∈ normalizeFields raw, kv.2.isDict = false := by
    intro kv hkv
    obtain ⟨k₀, hk₀⟩ := mem_of_mem_normalizeFields hkv
    exact hvals (k₀, kv.2) hk₀
  have hdm1 : (direct_map fm raw).1 =
      normalize_checkboxes (mapLoop fm (normalizeFields raw)).1 := by
    unfold direct_map
    rw [hne]
    simp
  rw [hdm1, shape_normalize_checkboxes]
  exact mapLoop_shape fm (normalizeFields raw) hpaths hnfvals

/-- Witness for `direct_map_shape_invariant` at the spec's direct-mapping
scenario: one raw general-liability field mapped into the schema. -/
theorem direct_map_shape_invariant_witness :
    shape (direct_map
      [("General_Liability_EachOccurrence_A",
        "general_liability.each_occurrence")]
      [("General_Liability_EachOccurrence_A[0]",
        PyVal.str "$1,000,000")]).1 = shape init_coverage_structure :=
  direct_map_shape_invariant
    [("General_Liability_EachOccurrence_A",
      "general_liability.each_occurrence")]
    [("General_Liability_EachOccurrence_A[0]", PyVal.str "$1,000,000")]
    (by simp) (by decide) (by decide)

end Acord
